import Mathlib

/-!
Verification of the `file_inbox` filing tool against its specification.

The development shallowly embeds the program's core (the root `main` package:
`parseFileName`, `unitTest.verify`, `move`, `copyFile`, `organize`,
`ensureHave`, `processInbox`, `fileResult.summarize`, the destination
accumulator and `Config.dest`/`Config.ccDest`).  Pure logic (filename parsing,
counting, set accumulation) is translated directly.  Filesystem effects are
modelled by explicit state passing: directory listings, `os.Stat`/`isDir`
answers and the outcomes of fallible syscalls (`os.Rename`, `os.Open`,
`io.Copy`, `Close`) are inputs supplied by an environment, and each embedded
operation returns the resulting state (and, where a claim needs it, the trace
of filesystem actions it performed).
-/

namespace FileInbox

/-! ## Filename parser (`parseFileName`, `unitTest.verify`, `fileRe`) -/

/-- The structured result of parsing a file name, mirroring Go's
`parsedName` struct: `{baseName, year, month, date, dest}`. -/
structure parsedName where
  baseName : String
  year : String
  month : String
  date : String
  dest : String
deriving DecidableEq

/-- Parse failures of `parseFileName`, carried structurally.  The Go code
produces `error` values via `fmt.Errorf`; each constructor records the data
interpolated into the corresponding format string, and `ParseErr.message`
below renders the message text. -/
inductive ParseErr where
  /-- `fileRe` did not match the name. -/
  | malformed (baseName : String)
  /-- `unitTest.verify`: the value is outside `[min, max]`.  Records the unit
  name (`"year"`, `"month"` or `"date"`), the offending substring and the
  bounds. -/
  | range (unit : String) (value : String) (lo hi : Int)
  /-- The year is more than 2 years past the current year and `force` is
  unset. -/
  | future (baseName : String) (yearDiff : Int)
deriving DecidableEq

/-- Rendering of the `fmt.Errorf` format strings used by `parseFileName` and
`unitTest.verify` (Go's `%q` quotes with double quotes; `%d` prints the
integer). -/
def ParseErr.message : ParseErr → String
  | .malformed b =>
      "Unable to parse \"" ++ b ++
        "\".  We expect an 8 digit value like 20160825_pge_taxes2016.pdf or 20160825_pge.pdf"
  | .range unit value lo hi =>
      "Unexpected " ++ unit ++ " \"" ++ value ++ "\".  We expect a value between "
        ++ toString lo ++ " and " ++ toString hi
  | .future b diff =>
      b ++ " is " ++ toString diff ++
        " years in the future, which is highly suspect.  To continue, set the --force flag"

/-- A character allowed in the destination capture group `[^_.]+` of
`fileRe`: anything but an underscore or a dot (note that this includes the
newline character). -/
def destChar (c : Char) : Bool := c != '_' && c != '.'

/-- A character matched by `.` in Go's regexp (no `(?s)` flag): any character
except newline. -/
def dotChar (c : Char) : Bool := c != '\n'

/-- Matching of `fileRe = ^(\d\d\d\d)(\d\d)(\d\d)_([^_.]+).*$` against a name,
returning the four capture groups.  The pattern is anchored at both ends and
every piece before the final `.*` has fixed shape, so a match exists exactly
when the name starts with eight digits and an underscore, followed by a
non-empty maximal run of `[^_.]` characters (the greedy fourth group), with
the remainder free of newlines (RE2's `.` does not match `\n`, and shortening
the greedy group only moves `[^_.]`-characters, never a newline, out of the
`.*` region, so no backtracked split can succeed either). -/
def fileReMatch (s : List Char) :
    Option (List Char × List Char × List Char × List Char) :=
  match s with
  | c1 :: c2 :: c3 :: c4 :: c5 :: c6 :: c7 :: c8 :: u :: rest =>
    if (c1.isDigit && c2.isDigit && c3.isDigit && c4.isDigit &&
        c5.isDigit && c6.isDigit && c7.isDigit && c8.isDigit && (u == '_')) = true then
      let tok := rest.takeWhile destChar
      let rem := rest.dropWhile destChar
      if tok ≠ [] ∧ rem.all dotChar = true then
        some ([c1, c2, c3, c4], [c5, c6], [c7, c8], tok)
      else none
    else none
  | _ => none

/-- `strconv.Atoi` restricted to the all-digit strings produced by the
capture groups of `fileRe` (on which `Atoi` cannot fail, so its error branch
in `unitTest.verify` is dead for every call site in the program). -/
def digitsVal (s : List Char) : Nat :=
  s.foldl (fun a c => a * 10 + (c.toNat - 48)) 0

/-- Go's `unitTest` struct: an inclusive range plus the unit name used in the
range-error message. -/
structure unitTest where
  min : Int
  max : Int
  unit : String
deriving DecidableEq

def yearTest : unitTest := ⟨1, 9999, "year"⟩
def monthTest : unitTest := ⟨1, 12, "month"⟩
def dateTest : unitTest := ⟨1, 31, "date"⟩

/-- Go's `unitTest.verify`: convert and range-check one date field.  `s` is
always one of the all-digit capture groups, so the `Atoi` error branch is
omitted (see `digitsVal`). -/
def unitTest.verify (ut : unitTest) (s : List Char) : Except ParseErr Int :=
  let i : Int := digitsVal s
  if i < ut.min ∨ i > ut.max then
    .error (.range ut.unit s.asString ut.min ut.max)
  else
    .ok i

/-- Go's `parseFileName`.  `curYear` stands for `time.Now().Year()`. -/
def parseFileName (force : Bool) (curYear : Int) (baseName : String) :
    Except ParseErr parsedName :=
  match fileReMatch baseName.data with
  | none => .error (.malformed baseName)
  | some (y, m, d, dst) =>
    match yearTest.verify y with
    | .error e => .error e
    | .ok yearVal =>
      let yearDiff := yearVal - curYear
      if force = false ∧ yearDiff > 2 then
        .error (.future baseName yearDiff)
      else
        match monthTest.verify m with
        | .error e => .error e
        | .ok _ =>
          match dateTest.verify d with
          | .error e => .error e
          | .ok _ => .ok ⟨baseName, y.asString, m.asString, d.asString, dst.asString⟩

/-- Whether a parse result is a range error (used to state that a given
failure is *not* reported as a range error). -/
def isRangeErr : Except ParseErr parsedName → Bool
  | .error (.range _ _ _ _) => true
  | _ => false

/-! ## Mover/Copier (`move`, `copyFile`)

`move` and `copyFile` are sequences of fallible syscalls.  The model supplies
each syscall's outcome through an environment `FsEnv` and tracks the state of
the two paths involved in a small filesystem record `MoveFS`, together with
the trace of filesystem actions performed.  `os.Remove` is modelled as always
succeeding (its error is discarded by the code on the failure path, and on the
success path the assignment to the local `err` can no longer change the
already-fixed return value). -/

/-- Underlying OS error cause of a failed syscall. -/
inductive Errno where
  | EXDEV
  | EACCES
  | ENOENT
  | EEXIST
  | Eio
deriving DecidableEq

/-- Go error values as far as `move` inspects them: `move` only ever looks at
the dynamic type of the rename error (`*os.LinkError` or not); every
constructor also records the underlying cause so that statements can speak
about *why* a syscall failed. -/
inductive GoErr where
  /-- An error of dynamic type `*os.LinkError` (what `os.Rename` returns for
  every one of its failures). -/
  | linkError (cause : Errno)
  /-- An error whose dynamic type is not `*os.LinkError`. -/
  | nonLinkError (cause : Errno)
  /-- An error returned by `os.Open` / `os.OpenFile`. -/
  | openError (cause : Errno)
  /-- An error returned by `io.Copy`. -/
  | copyError (cause : Errno)
  /-- An error returned by `File.Close`. -/
  | closeError (cause : Errno)
deriving DecidableEq

/-- The type assertion `_, ok := err.(*os.LinkError)` in `move`. -/
def GoErr.isLinkError : GoErr → Bool
  | .linkError _ => true
  | _ => false

/-- The rename error that `os.Rename` produces for a cross-filesystem pair:
a `*os.LinkError` wrapping `EXDEV`. -/
def crossFsErr : GoErr := .linkError .EXDEV

/-- State of the source and destination paths of one `move`/`copyFile` call.
`dstComplete` records whether the file at the destination holds the full
copied content (false while only partially written). -/
structure MoveFS where
  srcExists : Bool
  dstExists : Bool
  dstComplete : Bool
deriving DecidableEq

/-- Environment choosing the outcome of each syscall `move`/`copyFile` can
issue.  `none` means success.  The destination open is `O_CREATE|O_EXCL`, so
it fails with `EEXIST` whenever the destination already exists regardless of
`openDstRes`; `openDstRes` supplies any further environmental failure. -/
structure FsEnv where
  renameRes : Option GoErr
  openSrcRes : Option GoErr
  openDstRes : Option GoErr
  copyRes : Option GoErr
  closeFromRes : Option GoErr
  closeToRes : Option GoErr
deriving DecidableEq

/-- Filesystem actions performed by `move`/`copyFile`, in order. -/
inductive MAct where
  | rename
  | openSrc
  | openDst
  | copy
  | closeFrom
  | closeTo
  | removeSrc
  | removeDst
deriving DecidableEq

/-- Result of a `move`/`copyFile` call: the returned error, the final state
of the two paths, and the actions performed. -/
structure MoveOut where
  ret : Option GoErr
  fs : MoveFS
  acts : List MAct
deriving DecidableEq

/-- The deferred cleanup closure of `move`.  It runs after the `return`
statement has already fixed the function's result — `move` has an *unnamed*
error result, so the closure's updates to the local `err` cannot change what
the caller sees; they only select which `os.Remove` branch runs.  `localErr`
is the value of the local `err` when the closure starts. -/
def moveDefer (env : FsEnv) (fromOpened toOpened : Bool) (localErr : Option GoErr)
    (fs : MoveFS) (acts : List MAct) : MoveFS × List MAct :=
  let acts1 := if fromOpened then acts ++ [MAct.closeFrom] else acts
  let localErr1 :=
    if toOpened then (if localErr = none then env.closeToRes else localErr) else localErr
  let acts2 := if toOpened then acts1 ++ [MAct.closeTo] else acts1
  if localErr1 = none then
    ({ fs with srcExists := false }, acts2 ++ [MAct.removeSrc])
  else
    ({ fs with dstExists := false, dstComplete := false }, acts2 ++ [MAct.removeDst])

/-- Go's `move(fromName, toName)`: try `os.Rename`; if the error is a
`*os.LinkError`, fall back to open/exclusive-create/copy with the deferred
cleanup above; any non-`LinkError` rename error is returned directly. -/
def move (env : FsEnv) (fs0 : MoveFS) : MoveOut :=
  match env.renameRes with
  | none =>
      { ret := none
        fs := { srcExists := false, dstExists := true, dstComplete := true }
        acts := [MAct.rename] }
  | some e =>
    if e.isLinkError = false then
      { ret := some e, fs := fs0, acts := [MAct.rename] }
    else
      match env.openSrcRes with
      | some e2 =>
          let r := moveDefer env false false (some e2) fs0 [MAct.rename, MAct.openSrc]
          { ret := some e2, fs := r.1, acts := r.2 }
      | none =>
        match (if fs0.dstExists then some (GoErr.openError .EEXIST) else env.openDstRes) with
        | some e2 =>
            let r := moveDefer env true false (some e2) fs0
              [MAct.rename, MAct.openSrc, MAct.openDst]
            { ret := some e2, fs := r.1, acts := r.2 }
        | none =>
          let fs1 : MoveFS := { fs0 with dstExists := true, dstComplete := false }
          match env.copyRes with
          | some e2 =>
              let r := moveDefer env true true (some e2) fs1
                [MAct.rename, MAct.openSrc, MAct.openDst, MAct.copy]
              { ret := some e2, fs := r.1, acts := r.2 }
          | none =>
              let r := moveDefer env true true none { fs1 with dstComplete := true }
                [MAct.rename, MAct.openSrc, MAct.openDst, MAct.copy]
              { ret := none, fs := r.1, acts := r.2 }

/-- Go's `copyFile(src, dest)`: open source, exclusive-create destination,
stream copy.  Its deferred closure closes both handles and assigns the
destination close error to the local `err` when `err` was nil — but, exactly
as in `move`, the result is unnamed, so the assignment never reaches the
caller; and `copyFile` performs no `os.Remove` at all. -/
def copyFile (env : FsEnv) (fs0 : MoveFS) : MoveOut :=
  match env.openSrcRes with
  | some e => { ret := some e, fs := fs0, acts := [MAct.openSrc] }
  | none =>
    match (if fs0.dstExists then some (GoErr.openError .EEXIST) else env.openDstRes) with
    | some e =>
        { ret := some e, fs := fs0, acts := [MAct.openSrc, MAct.openDst, MAct.closeFrom] }
    | none =>
      let fs1 : MoveFS := { fs0 with dstExists := true, dstComplete := false }
      match env.copyRes with
      | some e =>
          { ret := some e, fs := fs1
            acts := [MAct.openSrc, MAct.openDst, MAct.copy, MAct.closeFrom, MAct.closeTo] }
      | none =>
          { ret := none, fs := { fs1 with dstComplete := true }
            acts := [MAct.openSrc, MAct.openDst, MAct.copy, MAct.closeFrom, MAct.closeTo] }

/-! ## Directory organizer (`organize`, `ensureHave`)

`organize` lists `destDir`, partitions the children into the `dirsHave` set
and the loose files, retrofits each loose file into its year subdirectory and
finally ensures a directory for every year in `years`.  The model's state is
the list of immediate children of `destDir` plus the evolving `dirsHave` set,
the moved-count and the trace of mkdir/move actions.  The outcome of each
inner `move` call (same-filesystem rename, which can still fail for
environmental reasons such as permissions) is supplied by the oracle `mv`;
`os.Mkdir` fails exactly when an entry of that name already exists. -/

/-- One immediate child of a directory, as returned by `ioutil.ReadDir`. -/
structure Entry where
  name : String
  isDir : Bool
deriving DecidableEq

def entryNames (es : List Entry) : List String := es.map Entry.name

/-- The initial `dirsHave` set of `organize`: names of all immediate children
that are directories (whatever their names look like). -/
def dirsHave0 (children : List Entry) : List String :=
  entryNames (children.filter (fun c => c.isDir))

/-- The initial `filesHave` list of `organize`: names of all loose
(non-directory) children, in listing order. -/
def filesHave0 (children : List Entry) : List String :=
  entryNames (children.filter (fun c => !c.isDir))

/-- `path.Join` on two clean, non-empty segments. -/
def pjoin (a b : String) : String := a ++ "/" ++ b

/-- `path.Join` on three clean, non-empty segments. -/
def pjoin3 (a b c : String) : String := pjoin (pjoin a b) c

/-- Actions `organize` performs on the filesystem.  `mkdir year` stands for
`os.Mkdir(path.Join(destDir, year), 0700)`; `move` records both full paths
passed to the mover. -/
inductive OAct where
  | mkdir (year : String)
  | move (oldPath newPath : String)
deriving DecidableEq

/-- Errors `organize` returns, each wrapping the underlying error with the
context the Go code attaches. -/
inductive OrgErr where
  /-- `errors.Wrap(err, "organize")` around a `parseFileName` failure. -/
  | parseFail (e : ParseErr)
  /-- `errors.Wrap(err, "ensureHave")`: `os.Mkdir` failed because an entry of
  that name already exists. -/
  | mkdirFail (path : String)
  /-- `errors.Wrapf(err, "organizing %q", oldPath)` around a `move` failure. -/
  | moveFail (oldPath : String) (e : GoErr)
deriving DecidableEq

/-- Mutable state of one `organize` call. -/
structure OrgState where
  children : List Entry
  dirsHave : List String
  cnt : Nat
  acts : List OAct
deriving DecidableEq

/-- Go's `ensureHave`: if `year` is already in the `dirsHave` set do nothing;
otherwise attempt `os.Mkdir`, which fails iff an entry of that name exists. -/
def ensureHave (destDir year : String) (st : OrgState) : Option OrgErr × OrgState :=
  if year ∈ st.dirsHave then (none, st)
  else if year ∈ entryNames st.children then
    (some (OrgErr.mkdirFail (pjoin destDir year)),
      { st with acts := st.acts ++ [OAct.mkdir year] })
  else
    (none, { st with children := st.children ++ [⟨year, true⟩]
                     dirsHave := st.dirsHave ++ [year]
                     acts := st.acts ++ [OAct.mkdir year] })

/-- The loop of `organize` over the snapshot of loose file names: parse each
name, ensure its year directory, move the file into it. -/
def orgLoop (force : Bool) (curYear : Int) (mv : String → String → Option GoErr)
    (destDir : String) : List String → OrgState → Option OrgErr × OrgState
  | [], st => (none, st)
  | f :: rest, st =>
    match parseFileName force curYear f with
    | .error e => (some (OrgErr.parseFail e), st)
    | .ok parsed =>
      match ensureHave destDir parsed.year st with
      | (some e, st1) => (some e, st1)
      | (none, st1) =>
        match mv (pjoin destDir f) (pjoin3 destDir parsed.year f) with
        | some ge =>
            (some (OrgErr.moveFail (pjoin destDir f) ge),
              { st1 with acts := st1.acts ++
                  [OAct.move (pjoin destDir f) (pjoin3 destDir parsed.year f)] })
        | none =>
            orgLoop force curYear mv destDir rest
              { st1 with children := st1.children.filter (fun c => c.name != f)
                         acts := st1.acts ++
                           [OAct.move (pjoin destDir f) (pjoin3 destDir parsed.year f)]
                         cnt := st1.cnt + 1 }

/-- The final loop of `organize` over the caller-supplied `years`. -/
def yearsLoop (destDir : String) : List String → OrgState → Option OrgErr × OrgState
  | [], st => (none, st)
  | y :: rest, st =>
    match ensureHave destDir y st with
    | (some e, st1) => (some e, st1)
    | (none, st1) => yearsLoop destDir rest st1

/-- Go's `organize(force, destDir, years)`.  Returns the moved-count, the
error (if any; the count accumulated so far is returned alongside it), the
final children of `destDir` and the action trace. -/
def organize (force : Bool) (curYear : Int) (mv : String → String → Option GoErr)
    (destDir : String) (children : List Entry) (years : List String) :
    Nat × Option OrgErr × List Entry × List OAct :=
  match orgLoop force curYear mv destDir (filesHave0 children)
      ⟨children, dirsHave0 children, 0, []⟩ with
  | (some e, st) => (st.cnt, some e, st.children, st.acts)
  | (none, st) =>
    match yearsLoop destDir years st with
    | (some e, st1) => (st1.cnt, some e, st1.children, st1.acts)
    | (none, st1) => (st1.cnt, none, st1.children, st1.acts)

/-! ## Run result (`fileResult`, `summarize`) -/

/-- Go's `fileResult` counters (the two duration fields are timing-only and
not modelled).  `missingDirs` is a `map[string]bool` used as a set. -/
structure fileResult where
  okCount : Nat
  orgCount : Nat
  failureCount : Nat
  missingDirs : List String
deriving DecidableEq

/-- Insertion into the `missingDirs` set (`fr.missingDirs[dest] = true`). -/
def addMissing (l : List String) (d : String) : List String :=
  if d ∈ l then l else l ++ [d]

/-- Go's `fileResult.summarize`: prints the counts and the missing-directory
report (side effects not modelled) and returns `fmt.Errorf("There were %d
failures", ...)` iff the failure count is non-zero. -/
def fileResult.summarize (fr : fileResult) : Option String :=
  if fr.failureCount ≠ 0 then
    some ("There were " ++ toString fr.failureCount ++ " failures")
  else none

/-! ## Destination accumulator (`accum`) -/

/-- Go's `accum`: a map from destination name to the set of years seen for
it.  Go iterates the map in unspecified order; the model keeps insertion
order (no claim depends on the order). -/
abbrev accum := List (String × List String)

/-- Go's `accum.add`. -/
def accum.add : accum → String → String → accum
  | [], dest, year => [(dest, [year])]
  | (d, ys) :: rest, dest, year =>
    if d = dest then (d, if year ∈ ys then ys else ys ++ [year]) :: rest
    else (d, ys) :: accum.add rest dest year

/-- The destinations of an accumulator, in insertion order. -/
def accKeys (a : accum) : List String := a.map Prod.fst

/-! ## Inbox processor (`processInbox`) -/

/-- The configuration fields the core consumes: the root directory and the
carbon-copy mapping (`CC.Root`, `CC.Dests`). -/
structure Config where
  Root : String
  ccRoot : String
  ccDests : List String
deriving DecidableEq

/-- Go's `Config.dest`: `path.Join(c.Root, "filed", name)`. -/
def Config.dest (c : Config) (name : String) : String :=
  pjoin3 c.Root "filed" name

/-- Go's `Config.ccDest`: the secondary-copy root for a destination, or `""`
when the cc feature is off or the destination is not cc'd. -/
def Config.ccDest (c : Config) (dest : String) : String :=
  if c.ccRoot = "" then ""
  else if dest ∈ c.ccDests then pjoin c.ccRoot dest
  else ""

/-- Environment for one `processInbox` call: the `isDir` answers, the
listings of the destination directories handed to `organize`, and the
outcomes of the fallible operations (`os.MkdirAll`, `os.Mkdir`, `copyFile`,
`move`), each keyed by the paths involved. -/
structure InboxEnv where
  destIsDir : String → Bool
  mkdirAllRes : String → Option GoErr
  destChildren : String → List Entry
  orgMv : String → String → Option GoErr
  ccDirIsDir : String → Bool
  ccMkdirRes : String → Option GoErr
  copyRes : String → String → Option GoErr
  moveRes : String → String → Option GoErr

/-- Whole-inbox (fatal) errors of `processInbox`, with the context the Go
code wraps around them. -/
inductive InboxErr where
  /-- `"%q does not appear to be a directory"`. -/
  | notADirectory (inbox : String)
  /-- `errors.Wrapf(err, "Failed creating dir for %s", dest)`. -/
  | mkdirAllFail (dest : String) (e : GoErr)
  /-- `errors.Wrapf(err, "Failed organizing %q", dest)`. -/
  | organizeFail (dest : String) (e : OrgErr)
deriving DecidableEq

/-- The first loop of `processInbox`: parse every listed name, counting a
failure for each unparsable one and accumulating `(dest, year)` for the
rest. -/
def parsePhase (force : Bool) (curYear : Int) :
    List String → List parsedName → accum → fileResult →
    List parsedName × accum × fileResult
  | [], ps, acc, fr => (ps, acc, fr)
  | b :: rest, ps, acc, fr =>
    match parseFileName force curYear b with
    | .error _ =>
        parsePhase force curYear rest ps acc
          { fr with failureCount := fr.failureCount + 1 }
    | .ok pn =>
        parsePhase force curYear rest (ps ++ [pn]) (acc.add pn.dest pn.year) fr

/-- The `organize` call at the end of one directory-preparation iteration
(`fr.orgCount += orgCount; if err != nil return`). -/
def prepOrganize (force : Bool) (curYear : Int) (env : InboxEnv)
    (dest : String) (years : List String) (fr : fileResult) :
    Except InboxErr fileResult :=
  match organize force curYear env.orgMv dest (env.destChildren dest) years with
  | (_, some e, _, _) => .error (.organizeFail dest e)
  | (cnt, none, _, _) => .ok { fr with orgCount := fr.orgCount + cnt }

/-- The second loop of `processInbox` over `acc.iter()`: make sure every
destination directory is ready (recording a missing directory as one failure
when `force` is unset), then organize it. -/
def prepPhase (force : Bool) (curYear : Int) (config : Config) (env : InboxEnv) :
    accum → fileResult → Except InboxErr fileResult
  | [], fr => .ok fr
  | (dn, years) :: rest, fr =>
    let dest := config.dest dn
    if env.destIsDir dest = true then
      match prepOrganize force curYear env dest years fr with
      | .error e => .error e
      | .ok fr1 => prepPhase force curYear config env rest fr1
    else if force = true then
      match env.mkdirAllRes dest with
      | some e => .error (.mkdirAllFail dest e)
      | none =>
        match prepOrganize force curYear env dest years fr with
        | .error e => .error e
        | .ok fr1 => prepPhase force curYear config env rest fr1
    else
      prepPhase force curYear config env rest
        { fr with missingDirs := addMissing fr.missingDirs dest
                  failureCount := fr.failureCount + 1 }

/-- One iteration of the final move loop of `processInbox`: the optional
carbon copy (whose failure counts as this file's failure and skips the move),
then the move into `dest/year/baseName`, with the move failure suppressed
when the destination was already recorded missing. -/
def moveOne (config : Config) (env : InboxEnv) (inbox : String) (pn : parsedName)
    (fr : fileResult) : fileResult :=
  let ccBase := config.ccDest pn.dest
  let ccFail : Option fileResult :=
    if ccBase = "" then none
    else
      let ccTarget := pjoin3 ccBase pn.year pn.baseName
      let dir := pjoin ccBase pn.year
      if env.ccDirIsDir dir = false ∧ (env.ccMkdirRes dir).isSome then
        some { fr with failureCount := fr.failureCount + 1 }
      else
        match env.copyRes (pjoin inbox pn.baseName) ccTarget with
        | some _ => some { fr with failureCount := fr.failureCount + 1 }
        | none => none
  match ccFail with
  | some fr1 => fr1
  | none =>
    let dest := config.dest pn.dest
    let oldPath := pjoin inbox pn.baseName
    let newPath := pjoin3 dest pn.year pn.baseName
    match env.moveRes oldPath newPath with
    | some _ =>
        if dest ∈ fr.missingDirs then fr
        else { fr with failureCount := fr.failureCount + 1 }
    | none => { fr with okCount := fr.okCount + 1 }

/-- The final loop of `processInbox` over the successfully parsed files. -/
def movePhase (config : Config) (env : InboxEnv) (inbox : String) :
    List parsedName → fileResult → fileResult
  | [], fr => fr
  | pn :: rest, fr =>
      movePhase config env inbox rest (moveOne config env inbox pn fr)

/-- Go's `processInbox(inbox, config, force, fr)`.  `inboxIsDir` models the
`isDir(inbox)` check and `files` the (successful) `ioutil.ReadDir` listing of
the inbox. -/
def processInbox (inbox : String) (config : Config) (force : Bool) (curYear : Int)
    (env : InboxEnv) (inboxIsDir : Bool) (files : List String) (fr : fileResult) :
    Except InboxErr fileResult :=
  if inboxIsDir = false then .error (.notADirectory inbox)
  else
    match parsePhase force curYear files [] [] fr with
    | (allParsed, acc, fr1) =>
      match prepPhase force curYear config env acc fr1 with
      | .error e => .error e
      | .ok fr2 => .ok (movePhase config env inbox allParsed fr2)

/-- The successfully parsed names of a listing, in order (what the `allParsed`
slice holds at the end of the first loop). -/
def parsedList (force : Bool) (curYear : Int) (files : List String) : List parsedName :=
  files.filterMap (fun b => (parseFileName force curYear b).toOption)

/-- The accumulator built by the first loop of `processInbox`. -/
def accOf (force : Bool) (curYear : Int) (files : List String) : accum :=
  (parsedList force curYear files).foldl (fun a pn => a.add pn.dest pn.year) []

/-- Invariant tying the children of `destDir` and the `dirsHave` set to the
list of loose files still to be processed by the organize loop: child names
are distinct (they are directory entries), every `dirsHave` member names a
directory child, every loose child is still pending, every pending name is a
loose child, and the pending names are distinct.  It holds for the initial
partition and is preserved by the loop. -/
def OrgInv (children : List Entry) (dirsHave : List String) (todo : List String) : Prop :=
  (entryNames children).Nodup ∧
  (∀ s ∈ dirsHave, ∃ c ∈ children, c.name = s ∧ c.isDir = true) ∧
  (∀ c ∈ children, c.isDir = false → c.name ∈ todo) ∧
  (∀ t ∈ todo, ∃ c ∈ children, c.name = t ∧ c.isDir = false) ∧
  todo.Nodup

/-! ## Theorems -/

/-- Reduction of `fileReMatch` on a name of the matching shape. -/
theorem fileReMatch_cons (a b c d e f g h : Char) (rest : List Char)
    (ha : a.isDigit = true) (hb : b.isDigit = true) (hc : c.isDigit = true)
    (hd : d.isDigit = true) (he : e.isDigit = true) (hf : f.isDigit = true)
    (hg : g.isDigit = true) (hh : h.isDigit = true)
    (htok : rest.takeWhile destChar ≠ [])
    (hnl : (rest.dropWhile destChar).all dotChar = true) :
    fileReMatch (a :: b :: c :: d :: e :: f :: g :: h :: '_' :: rest) =
      some ([a, b, c, d], [e, f], [g, h], rest.takeWhile destChar) := by
  unfold fileReMatch
  simp only [ha, hb, hc, hd, he, hf, hg, hh, Bool.true_and, Bool.and_true,
    beq_self_eq_true, if_true]
  rw [if_pos ⟨htok, hnl⟩]

/-- Claim C4: for every base name matching `^\d{8}_[^_.]+.*$` whose date
fields pass the range and future checks, `parseFileName` returns a
`parsedName` whose `year`, `month`, `date` fields are exactly the first four,
next two and next two digit characters of the name, whose `dest` is the
maximal underscore/dot-free token following the first underscore, and whose
`baseName` is the input name unchanged. -/
theorem c4_parse_recovers_fields (force : Bool) (curYear : Int) (name : String)
    (a b c d e f g h : Char) (rest : List Char)
    (hname : name.data = a :: b :: c :: d :: e :: f :: g :: h :: '_' :: rest)
    (ha : a.isDigit = true) (hb : b.isDigit = true) (hc : c.isDigit = true)
    (hd : d.isDigit = true) (he : e.isDigit = true) (hf : f.isDigit = true)
    (hg : g.isDigit = true) (hh : h.isDigit = true)
    (htok : rest.takeWhile destChar ≠ [])
    (hnl : (rest.dropWhile destChar).all dotChar = true)
    (hyear : 1 ≤ (digitsVal [a, b, c, d] : Int) ∧ (digitsVal [a, b, c, d] : Int) ≤ 9999)
    (hfut : force = true ∨ (digitsVal [a, b, c, d] : Int) - curYear ≤ 2)
    (hmonth : 1 ≤ (digitsVal [e, f] : Int) ∧ (digitsVal [e, f] : Int) ≤ 12)
    (hday : 1 ≤ (digitsVal [g, h] : Int) ∧ (digitsVal [g, h] : Int) ≤ 31) :
    parseFileName force curYear name =
      .ok ⟨name, List.asString [a, b, c, d], List.asString [e, f],
           List.asString [g, h], (rest.takeWhile destChar).asString⟩ := by
  have hyr : ¬((digitsVal [a, b, c, d] : Int) < 1 ∨ (digitsVal [a, b, c, d] : Int) > 9999) := by
    omega
  have hmo : ¬((digitsVal [e, f] : Int) < 1 ∨ (digitsVal [e, f] : Int) > 12) := by omega
  have hdy : ¬((digitsVal [g, h] : Int) < 1 ∨ (digitsVal [g, h] : Int) > 31) := by omega
  have hfu : ¬(force = false ∧ (digitsVal [a, b, c, d] : Int) - curYear > 2) := by
    rintro ⟨hf0, hgt⟩
    rcases hfut with h1 | h1
    · rw [h1] at hf0; exact Bool.noConfusion hf0
    · omega
  unfold parseFileName
  rw [hname, fileReMatch_cons a b c d e f g h rest ha hb hc hd he hf hg hh htok hnl]
  simp only [unitTest.verify, yearTest, monthTest, dateTest, hyr, hfu, hmo, hdy,
    if_false, ite_false]

/-- Witness for C4 at a concrete input. -/
theorem c4_witness :
    parseFileName false 2026 "20200131_pge_tax.pdf" =
      .ok ⟨"20200131_pge_tax.pdf", "2020", "01", "31", "pge"⟩ := by
  have h1 := c4_parse_recovers_fields false 2026 "20200131_pge_tax.pdf"
    '2' '0' '2' '0' '0' '1' '3' '1' ("pge_tax.pdf".data)
    (by decide) (by decide) (by decide) (by decide) (by decide) (by decide)
    (by decide) (by decide) (by decide) (by decide) (by decide)
    (by decide) (Or.inr (by decide)) (by decide) (by decide)
  rw [h1]
  rfl

/-- Reduction of `parseFileName` on a grammar-matching name whose three date
fields are in range: only the future check remains. -/
theorem parseFileName_ranges_ok (force : Bool) (curYear : Int) (name : String)
    (y m d dst : List Char)
    (hm : fileReMatch name.data = some (y, m, d, dst))
    (hyear : 1 ≤ (digitsVal y : Int) ∧ (digitsVal y : Int) ≤ 9999)
    (hmonth : 1 ≤ (digitsVal m : Int) ∧ (digitsVal m : Int) ≤ 12)
    (hday : 1 ≤ (digitsVal d : Int) ∧ (digitsVal d : Int) ≤ 31) :
    parseFileName force curYear name =
      if force = false ∧ (digitsVal y : Int) - curYear > 2 then
        .error (.future name ((digitsVal y : Int) - curYear))
      else .ok ⟨name, y.asString, m.asString, d.asString, dst.asString⟩ := by
  have hyr : ¬((digitsVal y : Int) < 1 ∨ (digitsVal y : Int) > 9999) := by omega
  have hmo : ¬((digitsVal m : Int) < 1 ∨ (digitsVal m : Int) > 12) := by omega
  have hdy : ¬((digitsVal d : Int) < 1 ∨ (digitsVal d : Int) > 31) := by omega
  unfold parseFileName
  rw [hm]
  simp only [unitTest.verify, yearTest, monthTest, dateTest, hyr, hmo, hdy,
    if_false, ite_false]

/-- Claim C5: for every grammar-matching name with in-range date fields,
`parseFileName` fails with a future-date error exactly when `force` is unset
and the parsed year exceeds the current calendar year by more than 2; with
`force = true` the future check is skipped entirely and the name parses
successfully. -/
theorem c5_future_check (force : Bool) (curYear : Int) (name : String)
    (y m d dst : List Char)
    (hm : fileReMatch name.data = some (y, m, d, dst))
    (hyear : 1 ≤ (digitsVal y : Int) ∧ (digitsVal y : Int) ≤ 9999)
    (hmonth : 1 ≤ (digitsVal m : Int) ∧ (digitsVal m : Int) ≤ 12)
    (hday : 1 ≤ (digitsVal d : Int) ∧ (digitsVal d : Int) ≤ 31) :
    ((∃ diff, parseFileName force curYear name = .error (.future name diff)) ↔
        force = false ∧ (digitsVal y : Int) - curYear > 2) ∧
      parseFileName true curYear name =
        .ok ⟨name, y.asString, m.asString, d.asString, dst.asString⟩ := by
  have key := parseFileName_ranges_ok force curYear name y m d dst hm hyear hmonth hday
  constructor
  · constructor
    · rintro ⟨diff, hdiff⟩
      by_cases hc : force = false ∧ (digitsVal y : Int) - curYear > 2
      · exact hc
      · rw [key, if_neg hc] at hdiff
        exact Except.noConfusion hdiff
    · intro hc
      exact ⟨_, by rw [key, if_pos hc]⟩
  · have key2 := parseFileName_ranges_ok true curYear name y m d dst hm hyear hmonth hday
    rw [key2, if_neg (by rintro ⟨h1, _⟩; exact Bool.noConfusion h1)]

/-- Witness for C5 at a concrete input (year 9999, current year 2026). -/
theorem c5_witness :
    ((∃ diff, parseFileName false 2026 "99990101_pge.pdf" =
          .error (.future "99990101_pge.pdf" diff)) ↔
        false = false ∧ (digitsVal "9999".data : Int) - 2026 > 2) ∧
      parseFileName true 2026 "99990101_pge.pdf" =
        .ok ⟨"99990101_pge.pdf", "9999", "01", "01", "pge"⟩ :=
  c5_future_check false 2026 "99990101_pge.pdf" "9999".data "01".data "01".data "pge".data
    (by decide) (by decide) (by decide) (by decide)

/-- Counterexample for C6 as stated: `"99990001_x"` matches the grammar and
has month `00` outside `[1, 12]`, yet with `force = false` (and current year
2026) `parseFileName` reports the *future* error, not a range error — the
future check runs before the month and day range checks. -/
theorem c6_counterexample :
    parseFileName false 2026 "99990001_x" = .error (.future "99990001_x" 7973) ∧
      isRangeErr (parseFileName false 2026 "99990001_x") = false := by
  exact ⟨rfl, rfl⟩

/-- Claim C6 (amended): for every grammar-matching name, an out-of-range
year yields the year range error (for any `force`); an out-of-range month or
day yields the month/date range error *provided the future check does not
fire first* (that is, `force = true` or the year is at most the current year
plus 2).  The range error records the field name, the offending value and
the valid bounds, and its rendered message contains all three. -/
theorem c6_range_errors (force : Bool) (curYear : Int) (name : String)
    (y m d dst : List Char)
    (hm : fileReMatch name.data = some (y, m, d, dst)) :
    ((digitsVal y : Int) < 1 ∨ (digitsVal y : Int) > 9999 →
        parseFileName force curYear name = .error (.range "year" y.asString 1 9999)) ∧
    ((1 ≤ (digitsVal y : Int) ∧ (digitsVal y : Int) ≤ 9999) →
      (force = true ∨ (digitsVal y : Int) - curYear ≤ 2) →
      ((digitsVal m : Int) < 1 ∨ (digitsVal m : Int) > 12) →
        parseFileName force curYear name = .error (.range "month" m.asString 1 12)) ∧
    ((1 ≤ (digitsVal y : Int) ∧ (digitsVal y : Int) ≤ 9999) →
      (force = true ∨ (digitsVal y : Int) - curYear ≤ 2) →
      (1 ≤ (digitsVal m : Int) ∧ (digitsVal m : Int) ≤ 12) →
      ((digitsVal d : Int) < 1 ∨ (digitsVal d : Int) > 31) →
        parseFileName force curYear name = .error (.range "date" d.asString 1 31)) ∧
    (∀ u v : String, ∀ lo hi : Int, ∃ pre mid1 mid2 : String,
        (ParseErr.range u v lo hi).message =
          pre ++ u ++ mid1 ++ v ++ mid2 ++ toString lo ++ " and " ++ toString hi) := by
  refine ⟨?_, ?_, ?_, ?_⟩
  · intro hy
    unfold parseFileName
    rw [hm]
    simp only [unitTest.verify, yearTest]
    rw [if_pos hy]
  · intro hy hfut hmo
    have hyr : ¬((digitsVal y : Int) < 1 ∨ (digitsVal y : Int) > 9999) := by omega
    have hfu : ¬(force = false ∧ (digitsVal y : Int) - curYear > 2) := by
      rintro ⟨h1, h2⟩
      rcases hfut with h3 | h3
      · rw [h3] at h1; exact Bool.noConfusion h1
      · omega
    unfold parseFileName
    rw [hm]
    simp only [unitTest.verify, yearTest, monthTest, hyr, hfu, if_false, ite_false]
    rw [if_pos hmo]
  · intro hy hfut hmo2 hdy
    have hyr : ¬((digitsVal y : Int) < 1 ∨ (digitsVal y : Int) > 9999) := by omega
    have hmo : ¬((digitsVal m : Int) < 1 ∨ (digitsVal m : Int) > 12) := by omega
    have hfu : ¬(force = false ∧ (digitsVal y : Int) - curYear > 2) := by
      rintro ⟨h1, h2⟩
      rcases hfut with h3 | h3
      · rw [h3] at h1; exact Bool.noConfusion h1
      · omega
    unfold parseFileName
    rw [hm]
    simp only [unitTest.verify, yearTest, monthTest, dateTest, hyr, hmo, hfu,
      if_false, ite_false]
    rw [if_pos hdy]
  · intro u v lo hi
    exact ⟨"Unexpected ", " \"", "\".  We expect a value between ", rfl⟩

/-- Witness for C6 at a concrete input: month 13 is reported as a month
range error. -/
theorem c6_witness :
    parseFileName false 2026 "20161301_pge.pdf" = .error (.range "month" "13" 1 12) :=
  (c6_range_errors false 2026 "20161301_pge.pdf" "2016".data "13".data "01".data "pge".data
      (by decide)).2.1 (by decide) (Or.inr (by decide)) (by decide)

/-- Counterexample for C1 as stated: a rename failure whose cause is
permission denied, not the different-filesystems condition, still arrives as
a `*os.LinkError` (`os.Rename` wraps **every** failure in one), so `move`
does not return the rename error — it runs the whole copy-then-delete
fallback: it opens the source, copies, and even deletes the source on
success, returning nil. -/
theorem c1_counterexample :
    (move ⟨some (.linkError .EACCES), none, none, none, none, none⟩
        ⟨true, false, false⟩).ret = none ∧
      MAct.openSrc ∈ (move ⟨some (.linkError .EACCES), none, none, none, none, none⟩
          ⟨true, false, false⟩).acts ∧
      MAct.removeSrc ∈ (move ⟨some (.linkError .EACCES), none, none, none, none, none⟩
          ⟨true, false, false⟩).acts ∧
      GoErr.linkError .EACCES ≠ crossFsErr := by
  refine ⟨rfl, ?_, ?_, by decide⟩ <;> decide

/-- Claim C1 (amended): the fallback is gated only on the rename error's
dynamic type.  A rename error that is not a `*os.LinkError` is returned
directly with nothing else performed; whenever the rename error *is* a
`*os.LinkError` — which for `os.Rename` is every failure, whatever the cause
— the fallback is attempted (the source open is issued). -/
theorem c1_fallback_gate (env : FsEnv) (fs0 : MoveFS) (e : GoErr)
    (hr : env.renameRes = some e) :
    (e.isLinkError = false →
        move env fs0 = { ret := some e, fs := fs0, acts := [MAct.rename] }) ∧
      (e.isLinkError = true → MAct.openSrc ∈ (move env fs0).acts) := by
  constructor
  · intro hl
    unfold move
    rw [hr]
    simp only [hl, eq_self_iff_true, ite_true, if_true]
  · intro hl
    unfold move
    rw [hr]
    simp only [hl, Bool.true_eq_false, if_false, ite_false]
    cases hs : env.openSrcRes with
    | some e2 => simp [moveDefer]
    | none =>
      cases hd : (if fs0.dstExists then some (GoErr.openError .EEXIST) else env.openDstRes) with
      | some e2 => simp [moveDefer]
      | none =>
        cases hc : env.copyRes with
        | some e2 => simp [moveDefer]
        | none =>
          cases hct : env.closeToRes <;> simp [moveDefer, hct]

/-- Witness for C1 at a concrete input: a hypothetical non-`LinkError`
rename failure is surfaced directly with no fallback action. -/
theorem c1_witness :
    move ⟨some (.nonLinkError .EACCES), none, none, none, none, none⟩ ⟨true, false, false⟩ =
      { ret := some (.nonLinkError .EACCES), fs := ⟨true, false, false⟩
        acts := [MAct.rename] } :=
  (c1_fallback_gate ⟨some (.nonLinkError .EACCES), none, none, none, none, none⟩
      ⟨true, false, false⟩ (.nonLinkError .EACCES) rfl).1 rfl

/-- Counterexample for C2 as stated: (a) when the stream copy inside
`copyFile` fails midway, the call returns the copy error but leaves the
partially-written destination file in place (`copyFile` has no cleanup); and
(b) when every step succeeds but the destination close fails, both `copyFile`
and `move` return nil instead of the close error — the deferred assignment
cannot reach the already-fixed unnamed result (and `move` then removes the
fully-copied destination while keeping the source). -/
theorem c2_counterexample :
    ((copyFile ⟨none, none, none, some (.copyError .Eio), none, none⟩
          ⟨true, false, false⟩).ret = some (.copyError .Eio) ∧
        (copyFile ⟨none, none, none, some (.copyError .Eio), none, none⟩
            ⟨true, false, false⟩).fs.dstExists = true ∧
        (copyFile ⟨none, none, none, some (.copyError .Eio), none, none⟩
            ⟨true, false, false⟩).fs.dstComplete = false) ∧
      (copyFile ⟨none, none, none, none, none, some (.closeError .Eio)⟩
          ⟨true, false, false⟩).ret = none ∧
      (move ⟨some (.linkError .EXDEV), none, none, none, none, some (.closeError .Eio)⟩
          ⟨true, false, false⟩).ret = none ∧
      (move ⟨some (.linkError .EXDEV), none, none, none, none, some (.closeError .Eio)⟩
          ⟨true, false, false⟩).fs = ⟨true, false, false⟩ := by
  exact ⟨⟨rfl, rfl, rfl⟩, rfl, rfl, rfl⟩

/-- Claim C2 (amended): a failing `move` leaves the source exactly as it was
and either touched nothing at all (the direct-return path) or removed the
destination, so no partially-written file survives a failing `move`; a
destination close failure is never returned by either operation — once every
step through the stream copy has succeeded the call returns nil whatever the
close outcome (the results are unnamed, so the deferred `err` assignment is
invisible to the caller); and `copyFile` never touches the source (but, per
the counterexample, may leave a partially-written destination). -/
theorem c2_failure_semantics (env : FsEnv) (fs0 : MoveFS) :
    ((move env fs0).ret ≠ none →
        (move env fs0).fs.srcExists = fs0.srcExists ∧
          ((move env fs0).fs = fs0 ∨ (move env fs0).fs.dstExists = false)) ∧
      (∀ e, env.renameRes = some e → e.isLinkError = true →
        env.openSrcRes = none → fs0.dstExists = false → env.openDstRes = none →
        env.copyRes = none → (move env fs0).ret = none) ∧
      (env.openSrcRes = none → fs0.dstExists = false → env.openDstRes = none →
        env.copyRes = none → (copyFile env fs0).ret = none) ∧
      (copyFile env fs0).fs.srcExists = fs0.srcExists := by
  refine ⟨?_, ?_, ?_, ?_⟩
  · intro hret
    unfold move at hret ⊢
    cases hr : env.renameRes with
    | none => rw [hr] at hret; simp at hret
    | some e =>
      rw [hr] at hret
      by_cases hl : e.isLinkError = false
      · simp only [hl, eq_self_iff_true, ite_true, if_true] at hret ⊢
        exact ⟨trivial, Or.inl trivial⟩
      · have hl2 : e.isLinkError = true := by
          cases h2 : e.isLinkError
          · exact absurd h2 hl
          · rfl
        simp only [hl2, Bool.true_eq_false, if_false, ite_false] at hret ⊢
        cases hs : env.openSrcRes with
        | some e2 => simp [moveDefer]
        | none =>
          rw [hs] at hret
          cases hd : (if fs0.dstExists then some (GoErr.openError .EEXIST)
              else env.openDstRes) with
          | some e2 => simp [moveDefer]
          | none =>
            rw [hd] at hret
            cases hc : env.copyRes with
            | some e2 => simp [moveDefer]
            | none => rw [hc] at hret; simp at hret
  · intro e hr hl hs hde hd hc
    unfold move
    rw [hr]
    simp [hl, hs, hde, hd, hc]
  · intro hs hde hd hc
    unfold copyFile
    simp [hs, hde, hd, hc]
  · unfold copyFile
    cases hs : env.openSrcRes with
    | some e2 => simp
    | none =>
      cases hd : (if fs0.dstExists then some (GoErr.openError .EEXIST)
          else env.openDstRes) with
      | some e2 => simp
      | none => cases hc : env.copyRes <;> simp

/-- Witness for C2 at concrete inputs: a `move` whose fallback fails at the
source open (destination pre-existing) keeps the source and ends with no file
at the destination; a `copyFile` whose destination close fails still returns
nil. -/
theorem c2_witness :
    ((move ⟨some (.linkError .EXDEV), some (.openError .ENOENT), none, none, none, none⟩
          ⟨true, true, true⟩).fs.srcExists = true ∧
        ((move ⟨some (.linkError .EXDEV), some (.openError .ENOENT), none, none, none, none⟩
            ⟨true, true, true⟩).fs = ⟨true, true, true⟩ ∨
          (move ⟨some (.linkError .EXDEV), some (.openError .ENOENT), none, none, none, none⟩
              ⟨true, true, true⟩).fs.dstExists = false)) ∧
      (copyFile ⟨none, none, none, none, none, some (.closeError .Eio)⟩
          ⟨true, false, false⟩).ret = none := by
  constructor
  · exact (c2_failure_semantics _ _).1 (by decide)
  · exact (c2_failure_semantics ⟨none, none, none, none, none, some (.closeError .Eio)⟩
      ⟨true, false, false⟩).2.2.1 rfl rfl rfl rfl

/-- `ensureHave` succeeds in exactly two ways: the year is already in
`dirsHave` (no-op) or it is fresh and no entry of that name exists (the
year directory is created and recorded). -/
theorem ensureHave_ok_cases (destDir year : String) (st st' : OrgState)
    (h : ensureHave destDir year st = (none, st')) :
    (year ∈ st.dirsHave ∧ st' = st) ∨
      (year ∉ st.dirsHave ∧ year ∉ entryNames st.children ∧
        st' = { st with children := st.children ++ [⟨year, true⟩]
                        dirsHave := st.dirsHave ++ [year]
                        acts := st.acts ++ [OAct.mkdir year] }) := by
  unfold ensureHave at h
  by_cases hy : year ∈ st.dirsHave
  · rw [if_pos hy] at h
    injection h with h1 h2
    exact Or.inl ⟨hy, h2.symm⟩
  · rw [if_neg hy] at h
    by_cases hn : year ∈ entryNames st.children
    · rw [if_pos hn] at h
      injection h with h1 h2
      exact Option.noConfusion h1
    · rw [if_neg hn] at h
      injection h with h1 h2
      exact Or.inr ⟨hy, hn, h2.symm⟩

/-- A successful `orgLoop` step decomposes into a successful parse, a
successful `ensureHave` and a successful move. -/
theorem orgLoop_cons_ok (force : Bool) (curYear : Int)
    (mv : String → String → Option GoErr) (destDir f : String)
    (rest : List String) (st st' : OrgState)
    (h : orgLoop force curYear mv destDir (f :: rest) st = (none, st')) :
    ∃ pn st1, parseFileName force curYear f = .ok pn ∧
      ensureHave destDir pn.year st = (none, st1) ∧
      mv (pjoin destDir f) (pjoin3 destDir pn.year f) = none ∧
      orgLoop force curYear mv destDir rest
        { st1 with children := st1.children.filter (fun c => c.name != f)
                   acts := st1.acts ++
                     [OAct.move (pjoin destDir f) (pjoin3 destDir pn.year f)]
                   cnt := st1.cnt + 1 } = (none, st') := by
  unfold orgLoop at h
  split at h
  next e hp =>
    injection h with h1 h2
    exact Option.noConfusion h1
  next pn hp =>
    split at h
    next e st1 he =>
      injection h with h1 h2
      exact Option.noConfusion h1
    next st1 he =>
      split at h
      next ge hm =>
        injection h with h1 h2
        exact Option.noConfusion h1
      next hm => exact ⟨pn, st1, hp, he, hm, h⟩

/-- `ensureHave` never changes the moved-count. -/
theorem ensureHave_cnt (destDir year : String) (st : OrgState) (e1 : Option OrgErr)
    (st1 : OrgState) (h : ensureHave destDir year st = (e1, st1)) : st1.cnt = st.cnt := by
  unfold ensureHave at h
  by_cases hy : year ∈ st.dirsHave
  · rw [if_pos hy] at h; injection h with h1 h2; rw [← h2]
  · rw [if_neg hy] at h
    by_cases hn : year ∈ entryNames st.children
    · rw [if_pos hn] at h; injection h with h1 h2; rw [← h2]
    · rw [if_neg hn] at h; injection h with h1 h2; rw [← h2]

/-- A successful `orgLoop` run moves exactly one file per pending name. -/
theorem orgLoop_ok_cnt (force : Bool) (curYear : Int)
    (mv : String → String → Option GoErr) (destDir : String) :
    ∀ (todo : List String) (st st' : OrgState),
      orgLoop force curYear mv destDir todo st = (none, st') →
      st'.cnt = st.cnt + todo.length
  | [], st, st', h => by
      injection h with h1 h2
      rw [← h2]
      simp
  | f :: rest, st, st', h => by
      obtain ⟨pn, st1, hp, he, hm, hrec⟩ :=
        orgLoop_cons_ok force curYear mv destDir f rest st st' h
      have hc1 : st1.cnt = st.cnt := ensureHave_cnt destDir pn.year st none st1 he
      have ih := orgLoop_ok_cnt force curYear mv destDir rest _ _ hrec
      simp at ih
      simp only [List.length_cons]
      omega

/-- `OrgInv` holds for the initial partition of the children. -/
theorem orgInv_init (children : List Entry) (hnd : (entryNames children).Nodup) :
    OrgInv children (dirsHave0 children) (filesHave0 children) := by
  refine ⟨hnd, ?_, ?_, ?_, ?_⟩
  · intro s hs
    simp only [dirsHave0, entryNames, List.mem_map, List.mem_filter] at hs
    obtain ⟨c, ⟨hc, hdir⟩, hname⟩ := hs
    exact ⟨c, hc, hname, hdir⟩
  · intro c hc hnot
    simp only [filesHave0, entryNames, List.mem_map, List.mem_filter]
    exact ⟨c, ⟨hc, by simp [hnot]⟩, rfl⟩
  · intro t ht
    simp only [filesHave0, entryNames, List.mem_map, List.mem_filter] at ht
    obtain ⟨c, ⟨hc, hdir⟩, hname⟩ := ht
    refine ⟨c, hc, hname, ?_⟩
    cases h2 : c.isDir
    · rfl
    · rw [h2] at hdir; exact absurd hdir (by simp)
  · have hsub : List.Sublist (filesHave0 children) (entryNames children) := by
      simpa [filesHave0, entryNames] using
        List.Sublist.map Entry.name (List.filter_sublist children)
    exact hnd.sublist hsub

/-- Distinct entry names identify entries. -/
theorem entryNames_nodup_inj {children : List Entry} (hnd : (entryNames children).Nodup)
    {c1 c2 : Entry} (h1 : c1 ∈ children) (h2 : c2 ∈ children) (he : c1.name = c2.name) :
    c1 = c2 := by
  have hinj := List.inj_on_of_nodup_map (f := Entry.name) (by simpa [entryNames] using hnd)
  exact hinj h1 h2 he

/-- A successful `ensureHave` preserves the invariant, only grows `dirsHave`,
and puts the year into `dirsHave`. -/
theorem orgInv_ensure (destDir year : String) (st st1 : OrgState) (todo : List String)
    (hinv : OrgInv st.children st.dirsHave todo)
    (h : ensureHave destDir year st = (none, st1)) :
    OrgInv st1.children st1.dirsHave todo ∧
      (∀ s ∈ st.dirsHave, s ∈ st1.dirsHave) ∧ year ∈ st1.dirsHave := by
  obtain ⟨hnd, hdir, hloose, htodo, htnd⟩ := hinv
  rcases ensureHave_ok_cases destDir year st st1 h with ⟨hy, rfl⟩ | ⟨hy, hn, h2⟩
  · exact ⟨⟨hnd, hdir, hloose, htodo, htnd⟩, fun s hs => hs, hy⟩
  · subst h2
    refine ⟨⟨?_, ?_, ?_, ?_, htnd⟩, fun s hs => List.mem_append_left _ hs,
      List.mem_append_right _ (by simp)⟩
    · simp only [entryNames, List.map_append, List.map_cons, List.map_nil]
      rw [List.nodup_append]
      refine ⟨hnd, List.nodup_singleton year, ?_⟩
      intro a ha hb
      simp only [List.mem_singleton] at hb
      subst hb
      exact hn (by simpa [entryNames] using ha)
    · intro s hs
      rcases List.mem_append.mp hs with hs | hs
      · obtain ⟨c, hc, h1, h2⟩ := hdir s hs
        exact ⟨c, List.mem_append_left _ hc, h1, h2⟩
      · simp only [List.mem_singleton] at hs
        subst hs
        exact ⟨⟨s, true⟩, List.mem_append_right _ (by simp), rfl, rfl⟩
    · intro c hc hfalse
      rcases List.mem_append.mp hc with hc | hc
      · exact hloose c hc hfalse
      · simp only [List.mem_singleton] at hc
        subst hc
        exact Bool.noConfusion hfalse
    · intro t ht
      obtain ⟨c, hc, h1, h2⟩ := htodo t ht
      exact ⟨c, List.mem_append_left _ hc, h1, h2⟩

/-- Removing the just-moved head file preserves the invariant for the
remaining files. -/
theorem orgInv_remove (children : List Entry) (dirsHave : List String)
    (f : String) (todo : List String)
    (hinv : OrgInv children dirsHave (f :: todo)) :
    OrgInv (children.filter (fun c => c.name != f)) dirsHave todo := by
  obtain ⟨hnd, hdir, hloose, htodo, htnd⟩ := hinv
  have hfile : ∃ c ∈ children, c.name = f ∧ c.isDir = false := htodo f (by simp)
  refine ⟨?_, ?_, ?_, ?_, (List.nodup_cons.mp htnd).2⟩
  · exact hnd.sublist (List.Sublist.map Entry.name (List.filter_sublist children))
  · intro s hs
    obtain ⟨c, hc, hname, hdirc⟩ := hdir s hs
    have hne : c.name ≠ f := by
      intro heq
      obtain ⟨cf, hcf, hcfname, hcffile⟩ := hfile
      have hceq : c = cf := entryNames_nodup_inj hnd hc hcf (by rw [heq, hcfname])
      rw [hceq, hcffile] at hdirc
      exact Bool.noConfusion hdirc
    exact ⟨c, List.mem_filter.mpr ⟨hc, by simp [hne]⟩, hname, hdirc⟩
  · intro c hc hfalse
    have hc' := List.mem_filter.mp hc
    have hmem := hloose c hc'.1 hfalse
    rcases List.mem_cons.mp hmem with h1 | h1
    · exfalso
      have := hc'.2
      simp [h1] at this
    · exact h1
  · intro t ht
    obtain ⟨c, hc, hname, hfile'⟩ := htodo t (List.mem_cons_of_mem f ht)
    have htne : t ≠ f := by
      intro hcon
      subst hcon
      exact (List.nodup_cons.mp htnd).1 ht
    exact ⟨c, List.mem_filter.mpr ⟨hc, by simp [hname, htne]⟩, hname, hfile'⟩

/-- A successful organize loop run ends with no pending loose files and a
`dirsHave` set that only grew. -/
theorem orgLoop_ok_inv (force : Bool) (curYear : Int)
    (mv : String → String → Option GoErr) (destDir : String) :
    ∀ (todo : List String) (st st' : OrgState),
      OrgInv st.children st.dirsHave todo →
      orgLoop force curYear mv destDir todo st = (none, st') →
      OrgInv st'.children st'.dirsHave [] ∧ (∀ s ∈ st.dirsHave, s ∈ st'.dirsHave)
  | [], st, st', hinv, h => by
      injection h with h1 h2
      subst h2
      exact ⟨hinv, fun s hs => hs⟩
  | f :: rest, st, st', hinv, h => by
      obtain ⟨pn, st1, hp, he, hm, hrec⟩ :=
        orgLoop_cons_ok force curYear mv destDir f rest st st' h
      obtain ⟨hinv1, hmono1, hyear⟩ := orgInv_ensure destDir pn.year st st1 (f :: rest) hinv he
      have hinv2 := orgInv_remove st1.children st1.dirsHave f rest hinv1
      obtain ⟨hinv3, hmono3⟩ := orgLoop_ok_inv force curYear mv destDir rest _ st' hinv2 hrec
      exact ⟨hinv3, fun s hs => hmono3 s (hmono1 s hs)⟩

/-- A successful years loop run preserves the invariant, only grows
`dirsHave`, and puts every requested year into `dirsHave`. -/
theorem yearsLoop_ok_inv (destDir : String) :
    ∀ (years : List String) (st st' : OrgState),
      OrgInv st.children st.dirsHave [] →
      yearsLoop destDir years st = (none, st') →
      OrgInv st'.children st'.dirsHave [] ∧ (∀ s ∈ st.dirsHave, s ∈ st'.dirsHave) ∧
        (∀ y ∈ years, y ∈ st'.dirsHave)
  | [], st, st', hinv, h => by
      injection h with h1 h2
      subst h2
      exact ⟨hinv, fun s hs => hs, by simp⟩
  | y :: rest, st, st', hinv, h => by
      unfold yearsLoop at h
      split at h
      next e st1 he =>
        injection h with h1 h2
        exact Option.noConfusion h1
      next st1 he =>
        obtain ⟨hinv1, hmono1, hymem⟩ := orgInv_ensure destDir y st st1 [] hinv he
        obtain ⟨hinv2, hmono2, hyears⟩ := yearsLoop_ok_inv destDir rest st1 st' hinv1 h
        refine ⟨hinv2, fun s hs => hmono2 s (hmono1 s hs), ?_⟩
        intro z hz
        rcases List.mem_cons.mp hz with rfl | hz
        · exact hmono2 z hymem
        · exact hyears z hz

/-- The years loop is a no-op when every year is already in `dirsHave`. -/
theorem yearsLoop_mem_dirsHave (destDir : String) :
    ∀ (years : List String) (st : OrgState),
      (∀ y ∈ years, y ∈ st.dirsHave) →
      yearsLoop destDir years st = (none, st)
  | [], _, _ => rfl
  | y :: rest, st, h => by
      unfold yearsLoop ensureHave
      rw [if_pos (h y (by simp))]
      exact yearsLoop_mem_dirsHave destDir rest st (fun z hz => h z (by simp [hz]))

/-- `organize` on a directory with no loose files whose years all already
have subdirectories does nothing. -/
theorem organize_noop (force : Bool) (curYear : Int)
    (mv : String → String → Option GoErr) (destDir : String)
    (children : List Entry) (years : List String)
    (hfiles : filesHave0 children = [])
    (hyears : ∀ y ∈ years, y ∈ dirsHave0 children) :
    organize force curYear mv destDir children years = (0, none, children, []) := by
  unfold organize
  rw [hfiles]
  show (match yearsLoop destDir years ⟨children, dirsHave0 children, 0, []⟩ with
      | (some e, st1) => (st1.cnt, some e, st1.children, st1.acts)
      | (none, st1) => (st1.cnt, none, st1.children, st1.acts)) = (0, none, children, [])
  rw [yearsLoop_mem_dirsHave destDir years ⟨children, dirsHave0 children, 0, []⟩ hyears]

/-- Children with no loose members have an empty `filesHave` partition. -/
theorem filesHave0_eq_nil (children : List Entry)
    (h : ∀ c ∈ children, c.isDir = false → c.name ∈ ([] : List String)) :
    filesHave0 children = [] := by
  unfold filesHave0 entryNames
  rw [List.map_eq_nil_iff, List.filter_eq_nil_iff]
  intro c hc hcon
  have hfalse : c.isDir = false := by
    cases hd : c.isDir
    · rfl
    · rw [hd] at hcon
      exact absurd hcon (by simp)
  exact absurd (h c hc hfalse) (by simp)

/-- A name with a directory child is in the initial `dirsHave` set. -/
theorem mem_dirsHave0 {children : List Entry} {s : String}
    (h : ∃ c ∈ children, c.name = s ∧ c.isDir = true) : s ∈ dirsHave0 children := by
  obtain ⟨c, hc, hname, hdir⟩ := h
  simp only [dirsHave0, entryNames, List.mem_map]
  exact ⟨c, List.mem_filter.mpr ⟨hc, hdir⟩, hname⟩

/-- Claim C7: organize is idempotent on an organized directory — when every
immediate child is a subdirectory and every requested year already has one,
it performs zero moves and returns moved-count 0 with no error and no
filesystem action; and running organize a second time right after any
successful run returns 0 and changes nothing. -/
theorem c7_organize_idempotent (force : Bool) (curYear : Int)
    (mv : String → String → Option GoErr) (destDir : String) :
    (∀ (children : List Entry) (years : List String),
        (∀ c ∈ children, c.isDir = true) →
        (∀ y ∈ years, y ∈ dirsHave0 children) →
        organize force curYear mv destDir children years = (0, none, children, [])) ∧
      (∀ (children : List Entry) (years : List String) (n : Nat) (ch' : List Entry)
          (acts : List OAct),
        (entryNames children).Nodup →
        organize force curYear mv destDir children years = (n, none, ch', acts) →
        organize force curYear mv destDir ch' years = (0, none, ch', [])) := by
  constructor
  · intro children years hdirs hyears
    refine organize_noop force curYear mv destDir children years ?_ hyears
    refine filesHave0_eq_nil children (fun c hc hfalse => ?_)
    rw [hdirs c hc] at hfalse
    exact Bool.noConfusion hfalse
  · intro children years n ch' acts hnd hrun
    unfold organize at hrun
    split at hrun
    next e stA hl =>
      simp only [Prod.mk.injEq] at hrun
      exact absurd hrun.2.1 (by simp)
    next stA hl =>
      split at hrun
      next e stB hy =>
        simp only [Prod.mk.injEq] at hrun
        exact absurd hrun.2.1 (by simp)
      next stB hy =>
        simp only [Prod.mk.injEq] at hrun
        obtain ⟨hcnt, -, hch, hacts⟩ := hrun
        obtain ⟨hinvA, hmonoA⟩ := orgLoop_ok_inv force curYear mv destDir
          (filesHave0 children) ⟨children, dirsHave0 children, 0, []⟩ stA
          (orgInv_init children hnd) hl
        obtain ⟨hinvB, hmonoB, hyearsB⟩ := yearsLoop_ok_inv destDir years stA stB hinvA hy
        subst hch
        refine organize_noop force curYear mv destDir stB.children years ?_ ?_
        · exact filesHave0_eq_nil stB.children hinvB.2.2.1
        · intro y hyy
          exact mem_dirsHave0 (hinvB.2.1 y (hyearsB y hyy))

/-- Witness for C7 at concrete inputs: an organized directory is left
untouched, and rerunning organize right after a run that moved one file
returns 0. -/
theorem c7_witness :
    organize false 2026 (fun _ _ => none) "filed/foo"
        [⟨"2015", true⟩, ⟨"2016", true⟩] ["2016"] =
      (0, none, [⟨"2015", true⟩, ⟨"2016", true⟩], []) ∧
      organize false 2026 (fun _ _ => none) "filed/foo" [⟨"2016", true⟩] [] =
        (0, none, [⟨"2016", true⟩], []) := by
  constructor
  · exact (c7_organize_idempotent false 2026 (fun _ _ => none) "filed/foo").1
      [⟨"2015", true⟩, ⟨"2016", true⟩] ["2016"] (by decide) (by decide)
  · exact (c7_organize_idempotent false 2026 (fun _ _ => none) "filed/foo").2
      [⟨"20160702_foo.pdf", false⟩] [] 1 [⟨"2016", true⟩]
      [OAct.mkdir "2016",
        OAct.move "filed/foo/20160702_foo.pdf" "filed/foo/2016/20160702_foo.pdf"]
      (by decide) (by decide)

/-- A successful prefix lets the organize loop continue with the suffix. -/
theorem orgLoop_append (force : Bool) (curYear : Int)
    (mv : String → String → Option GoErr) (destDir : String) :
    ∀ (l1 l2 : List String) (st st1 : OrgState),
      orgLoop force curYear mv destDir l1 st = (none, st1) →
      orgLoop force curYear mv destDir (l1 ++ l2) st =
        orgLoop force curYear mv destDir l2 st1
  | [], l2, st, st1, h => by
      injection h with h1 h2
      subst h2
      rfl
  | f :: rest, l2, st, st1, h => by
      obtain ⟨pn, stm, hp, he, hm, hrec⟩ :=
        orgLoop_cons_ok force curYear mv destDir f rest st st1 h
      have ih := orgLoop_append force curYear mv destDir rest l2 _ st1 hrec
      show orgLoop force curYear mv destDir ((f :: rest) ++ l2) st = _
      rw [List.cons_append]
      simp only [orgLoop, hp, he, hm]
      exact ih

/-- Claim C8: `organize` aborts the whole call with the wrapped parse error
as soon as a loose file's name fails to parse — nothing further in the
directory is processed — and when a move of a loose file fails it aborts
with a wrapped error identifying the offending path; in both cases the
returned count is the moved-count accumulated before the failure (one per
prefix file already moved). -/
theorem c8_organize_abort (force : Bool) (curYear : Int)
    (mv : String → String → Option GoErr) (destDir : String)
    (children : List Entry) (years : List String)
    (L1 L2 : List String) (f : String) (st1 : OrgState)
    (hsplit : filesHave0 children = L1 ++ f :: L2)
    (hpre : orgLoop force curYear mv destDir L1
        ⟨children, dirsHave0 children, 0, []⟩ = (none, st1)) :
    st1.cnt = L1.length ∧
      (∀ e, parseFileName force curYear f = .error e →
        organize force curYear mv destDir children years =
          (L1.length, some (OrgErr.parseFail e), st1.children, st1.acts)) ∧
      (∀ pn st2 ge, parseFileName force curYear f = .ok pn →
        ensureHave destDir pn.year st1 = (none, st2) →
        mv (pjoin destDir f) (pjoin3 destDir pn.year f) = some ge →
        organize force curYear mv destDir children years =
          (L1.length, some (OrgErr.moveFail (pjoin destDir f) ge), st2.children,
            st2.acts ++ [OAct.move (pjoin destDir f) (pjoin3 destDir pn.year f)])) := by
  have hcnt : st1.cnt = L1.length := by
    have h := orgLoop_ok_cnt force curYear mv destDir L1 _ _ hpre
    simpa using h
  have happ := orgLoop_append force curYear mv destDir L1 (f :: L2) _ st1 hpre
  refine ⟨hcnt, ?_, ?_⟩
  · intro e hp
    unfold organize
    rw [hsplit, happ]
    simp only [orgLoop, hp]
    rw [hcnt]
  · intro pn st2 ge hp he hm
    have hc2 : st2.cnt = st1.cnt := ensureHave_cnt destDir pn.year st1 none st2 he
    unfold organize
    rw [hsplit, happ]
    simp only [orgLoop, hp, he, hm]
    rw [hc2, hcnt]

/-- Witness for C8 at concrete inputs: a directory whose second loose file is
unparsable aborts with the parse error after moving the first file, and a
directory whose single loose file cannot be moved aborts with the wrapped
move error and count 0. -/
theorem c8_witness :
    organize false 2026 (fun _ _ => none) "d"
        [⟨"20200101_a.pdf", false⟩, ⟨"bad", false⟩] [] =
      (1, some (OrgErr.parseFail (ParseErr.malformed "bad")),
        [⟨"bad", false⟩, ⟨"2020", true⟩],
        [OAct.mkdir "2020", OAct.move "d/20200101_a.pdf" "d/2020/20200101_a.pdf"]) ∧
      organize false 2026 (fun _ _ => some (.linkError .EACCES)) "d"
          [⟨"20200101_a.pdf", false⟩] [] =
        (0, some (OrgErr.moveFail "d/20200101_a.pdf" (GoErr.linkError .EACCES)),
          [⟨"20200101_a.pdf", false⟩, ⟨"2020", true⟩],
          [OAct.mkdir "2020", OAct.move "d/20200101_a.pdf" "d/2020/20200101_a.pdf"]) := by
  constructor
  · exact (c8_organize_abort false 2026 (fun _ _ => none) "d"
        [⟨"20200101_a.pdf", false⟩, ⟨"bad", false⟩] [] ["20200101_a.pdf"] [] "bad"
        ⟨[⟨"bad", false⟩, ⟨"2020", true⟩], ["2020"], 1,
          [OAct.mkdir "2020", OAct.move "d/20200101_a.pdf" "d/2020/20200101_a.pdf"]⟩
        (by decide) (by decide)).2.1 (ParseErr.malformed "bad") rfl
  · exact (c8_organize_abort false 2026 (fun _ _ => some (.linkError .EACCES)) "d"
        [⟨"20200101_a.pdf", false⟩] [] [] [] "20200101_a.pdf"
        ⟨[⟨"20200101_a.pdf", false⟩], [], 0, []⟩ (by decide) (by decide)).2.2
      ⟨"20200101_a.pdf", "2020", "01", "01", "a"⟩
      ⟨[⟨"20200101_a.pdf", false⟩, ⟨"2020", true⟩], ["2020"], 0, [OAct.mkdir "2020"]⟩
      (GoErr.linkError .EACCES) rfl (by decide) rfl

/-- `ensureHave` only appends to the action trace. -/
theorem ensureHave_acts_mono (destDir year : String) (st : OrgState) (e1 : Option OrgErr)
    (st1 : OrgState) (h : ensureHave destDir year st = (e1, st1)) :
    ∃ tail, st1.acts = st.acts ++ tail := by
  unfold ensureHave at h
  by_cases hy : year ∈ st.dirsHave
  · rw [if_pos hy] at h
    injection h with h1 h2
    exact ⟨[], by simp [← h2]⟩
  · rw [if_neg hy] at h
    by_cases hn : year ∈ entryNames st.children
    · rw [if_pos hn] at h
      injection h with h1 h2
      exact ⟨[OAct.mkdir year], by rw [← h2]⟩
    · rw [if_neg hn] at h
      injection h with h1 h2
      exact ⟨[OAct.mkdir year], by rw [← h2]⟩

/-- A successful organize loop only appends to the action trace. -/
theorem orgLoop_acts_mono (force : Bool) (curYear : Int)
    (mv : String → String → Option GoErr) (destDir : String) :
    ∀ (todo : List String) (st st' : OrgState),
      orgLoop force curYear mv destDir todo st = (none, st') →
      ∃ tail, st'.acts = st.acts ++ tail
  | [], st, st', h => by
      injection h with h1 h2
      subst h2
      exact ⟨[], by simp⟩
  | f :: rest, st, st', h => by
      obtain ⟨pn, st1, hp, he, hm, hrec⟩ :=
        orgLoop_cons_ok force curYear mv destDir f rest st st' h
      obtain ⟨t1, ht1⟩ := ensureHave_acts_mono destDir pn.year st none st1 he
      obtain ⟨t2, ht2⟩ := orgLoop_acts_mono force curYear mv destDir rest _ st' hrec
      simp only at ht2
      refine ⟨t1 ++ ([OAct.move (pjoin destDir f) (pjoin3 destDir pn.year f)] ++ t2), ?_⟩
      rw [ht2, ht1]
      simp [List.append_assoc]

/-- A successful years loop only appends to the action trace. -/
theorem yearsLoop_acts_mono (destDir : String) :
    ∀ (years : List String) (st st' : OrgState),
      yearsLoop destDir years st = (none, st') →
      ∃ tail, st'.acts = st.acts ++ tail
  | [], st, st', h => by
      injection h with h1 h2
      subst h2
      exact ⟨[], by simp⟩
  | y :: rest, st, st', h => by
      unfold yearsLoop at h
      split at h
      next e st1 he =>
        injection h with h1 h2
        exact Option.noConfusion h1
      next st1 he =>
        obtain ⟨t1, ht1⟩ := ensureHave_acts_mono destDir y st none st1 he
        obtain ⟨t2, ht2⟩ := yearsLoop_acts_mono destDir rest st1 st' h
        exact ⟨t1 ++ t2, by rw [ht2, ht1, List.append_assoc]⟩

/-- Through a successful organize loop, a `mkdir` is only ever recorded for a
year that is not in the (monotonically growing) `dirsHave` set, so never for
a member of any lower bound `D` of the initial set. -/
theorem orgLoop_mkdir_fresh (force : Bool) (curYear : Int)
    (mv : String → String → Option GoErr) (destDir : String) (D : List String) :
    ∀ (todo : List String) (st st' : OrgState),
      (∀ s ∈ D, s ∈ st.dirsHave) →
      (∀ y, OAct.mkdir y ∈ st.acts → y ∉ D) →
      orgLoop force curYear mv destDir todo st = (none, st') →
      (∀ s ∈ D, s ∈ st'.dirsHave) ∧ (∀ y, OAct.mkdir y ∈ st'.acts → y ∉ D)
  | [], st, st', hD, hP, h => by
      injection h with h1 h2
      subst h2
      exact ⟨hD, hP⟩
  | f :: rest, st, st', hD, hP, h => by
      obtain ⟨pn, st1, hp, he, hm, hrec⟩ :=
        orgLoop_cons_ok force curYear mv destDir f rest st st' h
      have hstep : (∀ s ∈ D, s ∈ st1.dirsHave) ∧
          (∀ y, OAct.mkdir y ∈ st1.acts → y ∉ D) := by
        rcases ensureHave_ok_cases destDir pn.year st st1 he with ⟨hy, rfl⟩ | ⟨hy, hn, h2⟩
        · exact ⟨hD, hP⟩
        · subst h2
          constructor
          · intro s hs
            exact List.mem_append_left _ (hD s hs)
          · intro y hy2
            rcases List.mem_append.mp hy2 with hy2 | hy2
            · exact hP y hy2
            · simp only [List.mem_singleton, OAct.mkdir.injEq] at hy2
              subst hy2
              intro hcon
              exact hy (hD pn.year hcon)
      refine orgLoop_mkdir_fresh force curYear mv destDir D rest _ st' ?_ ?_ hrec
      · intro s hs
        exact hstep.1 s hs
      · intro y hy2
        simp only [List.mem_append] at hy2
        rcases hy2 with hy2 | hy2
        · exact hstep.2 y hy2
        · simp at hy2


/-- Through a successful years loop, a `mkdir` is only ever recorded for a
year not in any lower bound `D` of the `dirsHave` set. -/
theorem yearsLoop_mkdir_fresh (destDir : String) (D : List String) :
    ∀ (years : List String) (st st' : OrgState),
      (∀ s ∈ D, s ∈ st.dirsHave) →
      (∀ y, OAct.mkdir y ∈ st.acts → y ∉ D) →
      yearsLoop destDir years st = (none, st') →
      (∀ s ∈ D, s ∈ st'.dirsHave) ∧ (∀ y, OAct.mkdir y ∈ st'.acts → y ∉ D)
  | [], st, st', hD, hP, h => by
      injection h with h1 h2
      subst h2
      exact ⟨hD, hP⟩
  | y :: rest, st, st', hD, hP, h => by
      unfold yearsLoop at h
      split at h
      next e st1 he =>
        injection h with h1 h2
        exact Option.noConfusion h1
      next st1 he =>
        have hstep : (∀ s ∈ D, s ∈ st1.dirsHave) ∧
            (∀ z, OAct.mkdir z ∈ st1.acts → z ∉ D) := by
          rcases ensureHave_ok_cases destDir y st st1 he with ⟨hy, rfl⟩ | ⟨hy, hn, h2⟩
          · exact ⟨hD, hP⟩
          · subst h2
            constructor
            · intro s hs
              exact List.mem_append_left _ (hD s hs)
            · intro z hz
              rcases List.mem_append.mp hz with hz | hz
              · exact hP z hz
              · simp only [List.mem_singleton, OAct.mkdir.injEq] at hz
                subst hz
                intro hcon
                exact hy (hD z hcon)
        exact yearsLoop_mkdir_fresh destDir D rest st1 st' hstep.1 hstep.2 h

/-- A successful organize loop records a move action for every pending loose
file, with the new path under the file's parsed year. -/
theorem orgLoop_moves (force : Bool) (curYear : Int)
    (mv : String → String → Option GoErr) (destDir : String) :
    ∀ (todo : List String) (st st' : OrgState),
      orgLoop force curYear mv destDir todo st = (none, st') →
      ∀ f ∈ todo, ∀ pn, parseFileName force curYear f = .ok pn →
        OAct.move (pjoin destDir f) (pjoin3 destDir pn.year f) ∈ st'.acts
  | [], st, st', h => by
      intro f hf
      exact absurd hf (by simp)
  | g :: rest, st, st', h => by
      obtain ⟨pn', st1, hp, he, hm, hrec⟩ :=
        orgLoop_cons_ok force curYear mv destDir g rest st st' h
      intro f hf pn hpn
      rcases List.mem_cons.mp hf with rfl | hf
      · have hpe : pn = pn' := by
          rw [hpn] at hp
          injection hp
        subst hpe
        obtain ⟨tail, ht⟩ := orgLoop_acts_mono force curYear mv destDir rest _ st' hrec
        simp only at ht
        rw [ht]
        simp
      · exact orgLoop_moves force curYear mv destDir rest _ st' hrec f hf pn hpn

/-- Claim C10: every immediate directory child of `destDir` — whatever its
name — lands in the initial `dirsHave` set and is never treated as a loose
file; a successful run records a move for every parsed loose file into its
year subdirectory; and directory creation is only ever attempted for year
names outside the initial `dirsHave` set (in particular, never for a
pre-existing directory child). -/
theorem c10_dirs_have (force : Bool) (curYear : Int)
    (mv : String → String → Option GoErr) (destDir : String)
    (children : List Entry) (years : List String) (cnt : Nat)
    (ch' : List Entry) (acts : List OAct)
    (hnd : (entryNames children).Nodup)
    (hrun : organize force curYear mv destDir children years = (cnt, none, ch', acts)) :
    (∀ c ∈ children, c.isDir = true →
        c.name ∈ dirsHave0 children ∧ c.name ∉ filesHave0 children) ∧
      (∀ y, OAct.mkdir y ∈ acts → y ∉ dirsHave0 children) ∧
      (∀ f ∈ filesHave0 children, ∀ pn, parseFileName force curYear f = .ok pn →
        OAct.move (pjoin destDir f) (pjoin3 destDir pn.year f) ∈ acts) := by
  unfold organize at hrun
  split at hrun
  next e stA hl =>
    simp only [Prod.mk.injEq] at hrun
    exact absurd hrun.2.1 (by simp)
  next stA hl =>
    split at hrun
    next e stB hy =>
      simp only [Prod.mk.injEq] at hrun
      exact absurd hrun.2.1 (by simp)
    next stB hy =>
      simp only [Prod.mk.injEq] at hrun
      obtain ⟨-, -, hch, hacts⟩ := hrun
      subst hacts
      refine ⟨?_, ?_, ?_⟩
      · intro c hc hdir
        refine ⟨mem_dirsHave0 ⟨c, hc, rfl, hdir⟩, ?_⟩
        intro hmem
        simp only [filesHave0, entryNames, List.mem_map, List.mem_filter] at hmem
        obtain ⟨cf, ⟨hcf, hcffile⟩, hname⟩ := hmem
        have hceq : cf = c := entryNames_nodup_inj hnd hcf hc hname
        subst hceq
        rw [hdir] at hcffile
        simp at hcffile
      · have h1 := orgLoop_mkdir_fresh force curYear mv destDir (dirsHave0 children)
          (filesHave0 children) ⟨children, dirsHave0 children, 0, []⟩ stA
          (fun s hs => hs) (fun y hy2 => absurd hy2 (by simp)) hl
        have h2 := yearsLoop_mkdir_fresh destDir (dirsHave0 children) years stA stB
          h1.1 h1.2 hy
        exact h2.2
      · intro f hf pn hpn
        have hin := orgLoop_moves force curYear mv destDir (filesHave0 children)
          ⟨children, dirsHave0 children, 0, []⟩ stA hl f hf pn hpn
        obtain ⟨tail, ht⟩ := yearsLoop_acts_mono destDir years stA stB hy
        rw [ht]
        exact List.mem_append_left _ hin

/-- Witness for C10 at a concrete input: a pre-existing directory child named
`2020` receives the loose file without any creation attempt. -/
theorem c10_witness :
    (∀ c ∈ [Entry.mk "2020" true, Entry.mk "20200101_a.pdf" false], c.isDir = true →
        c.name ∈ dirsHave0 [Entry.mk "2020" true, Entry.mk "20200101_a.pdf" false] ∧
          c.name ∉ filesHave0 [Entry.mk "2020" true, Entry.mk "20200101_a.pdf" false]) ∧
      (∀ y, OAct.mkdir y ∈
          [OAct.move "d/20200101_a.pdf" "d/2020/20200101_a.pdf"] →
          y ∉ dirsHave0 [Entry.mk "2020" true, Entry.mk "20200101_a.pdf" false]) ∧
      (∀ f ∈ filesHave0 [Entry.mk "2020" true, Entry.mk "20200101_a.pdf" false],
        ∀ pn, parseFileName false 2026 f = .ok pn →
          OAct.move (pjoin "d" f) (pjoin3 "d" pn.year f) ∈
            [OAct.move "d/20200101_a.pdf" "d/2020/20200101_a.pdf"]) :=
  c10_dirs_have false 2026 (fun _ _ => none) "d"
    [Entry.mk "2020" true, Entry.mk "20200101_a.pdf" false] [] 1
    [Entry.mk "2020" true]
    [OAct.move "d/20200101_a.pdf" "d/2020/20200101_a.pdf"]
    (by decide) (by decide)

/-- Claim C9: the run's summary verdict is a failure indication if and only
if the accumulated failure count is greater than 0: `summarize` yields a
non-nil error exactly when `failureCount ≠ 0`, even though the individual
per-file failures were tolerated during the pass. -/
theorem c9_summarize_verdict (fr : fileResult) :
    (fr.summarize ≠ none ↔ fr.failureCount ≠ 0) ∧
      (fr.summarize ≠ none ↔ 0 < fr.failureCount) := by
  unfold fileResult.summarize
  by_cases h : fr.failureCount ≠ 0
  · rw [if_pos h]
    constructor
    · exact ⟨fun _ => h, fun _ => by simp⟩
    · exact ⟨fun _ => Nat.pos_of_ne_zero h, fun _ => by simp⟩
  · rw [if_neg h]
    push_neg at h
    constructor
    · exact ⟨fun h2 => absurd rfl h2, fun h2 => absurd h h2⟩
    · exact ⟨fun h2 => absurd rfl h2, fun h2 => by omega⟩

/-- Witness for C9 at a concrete run result. -/
theorem c9_witness :
    (fileResult.summarize ⟨3, 0, 2, []⟩ ≠ none ↔
        (fileResult.mk 3 0 2 []).failureCount ≠ 0) ∧
      (fileResult.summarize ⟨3, 0, 2, []⟩ ≠ none ↔
        0 < (fileResult.mk 3 0 2 []).failureCount) :=
  c9_summarize_verdict ⟨3, 0, 2, []⟩

/-- Counterexample for C3 as stated: with two parsable inbox files, both
destined for the single missing destination `baz`, and `force = false`, the
pass records `r/filed/baz` as missing and completes — but it charges **one**
failure to that destination, not one per file destined there (which would be
2): the counter is incremented once at directory-preparation time and both
per-file move failures are suppressed. -/
theorem c3_counterexample :
    processInbox "in" ⟨"r", "", []⟩ false 2026
        ⟨fun _ => false, fun _ => none, fun _ => [], fun _ _ => none,
          fun _ => false, fun _ => none, fun _ _ => none,
          fun _ _ => some (.linkError .ENOENT)⟩
        true ["20200101_baz.pdf", "20200102_baz.pdf"] ⟨0, 0, 0, []⟩ =
      .ok ⟨0, 0, 1, ["r/filed/baz"]⟩ ∧
      (fileResult.mk 0 0 1 ["r/filed/baz"]).failureCount ≠ 2 := by
  exact ⟨rfl, by decide⟩

/-- When every listed name parses, the first loop of `processInbox` collects
exactly the parsed names and their accumulator and reports no failure. -/
theorem parsePhase_all_ok (force : Bool) (curYear : Int) :
    ∀ (files : List String) (ps : List parsedName) (acc : accum) (fr : fileResult),
      (∀ b ∈ files, (parseFileName force curYear b).toOption.isSome = true) →
      parsePhase force curYear files ps acc fr =
        (ps ++ parsedList force curYear files,
          (parsedList force curYear files).foldl (fun a pn => a.add pn.dest pn.year) acc,
          fr)
  | [], ps, acc, fr, hp => by simp [parsePhase, parsedList]
  | b :: rest, ps, acc, fr, hp => by
      have hb := hp b (by simp)
      cases hpb : parseFileName force curYear b with
      | error e =>
        rw [hpb] at hb
        simp [Except.toOption] at hb
      | ok pn =>
        have ih := parsePhase_all_ok force curYear rest (ps ++ [pn])
          (acc.add pn.dest pn.year) fr (fun x hx => hp x (by simp [hx]))
        have hpl : parsedList force curYear (b :: rest) =
            pn :: parsedList force curYear rest := by
          simp [parsedList, hpb, Except.toOption]
        simp only [parsePhase, hpb]
        rw [ih, hpl]
        simp

/-- Keys of an accumulator after `add`: the old keys plus the new one. -/
theorem accum_add_key (a : accum) (dest year : String) :
    ∃ ys, (dest, ys) ∈ accum.add a dest year := by
  induction a with
  | nil => exact ⟨[year], by simp [accum.add]⟩
  | cons hd tl ih =>
    obtain ⟨d, ys⟩ := hd
    by_cases hd2 : d = dest
    · subst hd2
      exact ⟨if year ∈ ys then ys else ys ++ [year], by simp [accum.add]⟩
    · obtain ⟨ys', hys'⟩ := ih
      exact ⟨ys', by simp [accum.add, hd2, hys']⟩

/-- `add` preserves the presence of every key. -/
theorem accum_add_mono (a : accum) (dest year s : String)
    (h : ∃ pr, pr ∈ a ∧ pr.1 = s) :
    ∃ pr, pr ∈ accum.add a dest year ∧ pr.1 = s := by
  induction a with
  | nil => simp at h
  | cons hd tl ih =>
    obtain ⟨d, ys⟩ := hd
    obtain ⟨pr, hpr, hs⟩ := h
    by_cases hd2 : d = dest
    · subst hd2
      rcases List.mem_cons.mp hpr with heq | hpr
      · subst heq
        exact ⟨(d, if year ∈ ys then ys else ys ++ [year]), by simp [accum.add], hs⟩
      · exact ⟨pr, by simp [accum.add, hpr], hs⟩
    · rcases List.mem_cons.mp hpr with heq | hpr
      · subst heq
        exact ⟨(d, ys), by simp [accum.add, hd2], hs⟩
      · obtain ⟨pr', hpr', hs'⟩ := ih ⟨pr, hpr, hs⟩
        exact ⟨pr', by simp [accum.add, hd2, hpr'], hs'⟩

/-- The fold of `add` preserves the presence of every key. -/
theorem accum_foldl_mono :
    ∀ (l : List parsedName) (a : accum) (s : String),
      (∃ pr, pr ∈ a ∧ pr.1 = s) →
      ∃ pr, pr ∈ l.foldl (fun a pn => a.add pn.dest pn.year) a ∧ pr.1 = s
  | [], a, s, h => by simpa using h
  | x :: xs, a, s, h => by
      simp only [List.foldl_cons]
      exact accum_foldl_mono xs _ s (accum_add_mono a x.dest x.year s h)

/-- Folding `add` over a list of parsed names puts every name's destination
among the keys. -/
theorem mem_accKeys_foldl :
    ∀ (l : List parsedName) (a : accum) (pn : parsedName), pn ∈ l →
      ∃ pr, pr ∈ l.foldl (fun a pn => a.add pn.dest pn.year) a ∧ pr.1 = pn.dest
  | [], a, pn, h => absurd h (by simp)
  | hd :: tl, a, pn, h => by
      rcases List.mem_cons.mp h with rfl | h
      · simp only [List.foldl_cons]
        obtain ⟨ys, hys⟩ := accum_add_key a pn.dest pn.year
        exact accum_foldl_mono tl _ pn.dest ⟨(pn.dest, ys), hys, rfl⟩
      · simp only [List.foldl_cons]
        exact mem_accKeys_foldl tl _ pn h

/-- Membership in the `missingDirs` set after an insertion. -/
theorem addMissing_mem (l : List String) (d p : String) :
    p ∈ addMissing l d ↔ p ∈ l ∨ p = d := by
  unfold addMissing
  by_cases hd : d ∈ l
  · rw [if_pos hd]
    constructor
    · exact Or.inl
    · rintro (h | rfl)
      · exact h
      · exact hd
  · rw [if_neg hd]
    simp

/-- With `force = false` and error-free organize passes for the existing
destinations, the directory-preparation loop completes, charges exactly one
failure per accumulator entry whose destination directory is missing, and
records exactly the missing destinations. -/
theorem prepPhase_force_false (curYear : Int) (config : Config) (env : InboxEnv)
    (horg : ∀ dest years, env.destIsDir dest = true →
        (organize false curYear env.orgMv dest (env.destChildren dest) years).2.1 = none) :
    ∀ (l : accum) (fr : fileResult),
      ∃ fr', prepPhase false curYear config env l fr = .ok fr' ∧
        fr'.failureCount = fr.failureCount +
          l.countP (fun pr => !env.destIsDir (config.dest pr.1)) ∧
        (∀ p, p ∈ fr'.missingDirs ↔ p ∈ fr.missingDirs ∨
          ∃ pr, pr ∈ l ∧ p = config.dest pr.1 ∧ env.destIsDir p = false) ∧
        fr'.okCount = fr.okCount
  | [], fr => ⟨fr, rfl, by simp, fun p => by simp, rfl⟩
  | (dn, years) :: rest, fr => by
      cases hd : env.destIsDir (config.dest dn) with
      | true =>
        have ho := horg (config.dest dn) years hd
        obtain ⟨cnt1, e1, ch1, acts1, hor⟩ :
            ∃ cnt1 e1 ch1 acts1, organize false curYear env.orgMv (config.dest dn)
              (env.destChildren (config.dest dn)) years = (cnt1, e1, ch1, acts1) :=
          ⟨_, _, _, _, rfl⟩
        rw [hor] at ho
        simp only at ho
        subst ho
        obtain ⟨fr', hrec, hfail, hmiss, hok⟩ := prepPhase_force_false curYear config env
          horg rest { fr with orgCount := fr.orgCount + cnt1 }
        refine ⟨fr', ?_, ?_, ?_, ?_⟩
        · simp only [prepPhase, hd, if_true, prepOrganize, hor]
          exact hrec
        · rw [hfail]
          simp [List.countP_cons, hd]
        · intro p
          rw [hmiss p]
          constructor
          · rintro (hp | ⟨pr, hpr, hpeq, hpd⟩)
            · exact Or.inl hp
            · exact Or.inr ⟨pr, List.mem_cons_of_mem _ hpr, hpeq, hpd⟩
          · rintro (hp | ⟨pr, hpr, hpeq, hpd⟩)
            · exact Or.inl hp
            · rcases List.mem_cons.mp hpr with rfl | hpr
              · rw [hpeq] at hpd
                rw [hpd] at hd
                exact Bool.noConfusion hd
              · exact Or.inr ⟨pr, hpr, hpeq, hpd⟩
        · rw [hok]
      | false =>
        obtain ⟨fr', hrec, hfail, hmiss, hok⟩ := prepPhase_force_false curYear config env
          horg rest { fr with missingDirs := addMissing fr.missingDirs (config.dest dn)
                              failureCount := fr.failureCount + 1 }
        refine ⟨fr', ?_, ?_, ?_, ?_⟩
        · simp only [prepPhase, hd]
          exact hrec
        · rw [hfail]
          simp [List.countP_cons, hd]
          omega
        · intro p
          rw [hmiss p]
          simp only [addMissing_mem]
          constructor
          · rintro ((hp | rfl) | ⟨pr, hpr, hpeq, hpd⟩)
            · exact Or.inl hp
            · exact Or.inr ⟨(dn, years), by simp, rfl, hd⟩
            · exact Or.inr ⟨pr, List.mem_cons_of_mem _ hpr, hpeq, hpd⟩
          · rintro (hp | ⟨pr, hpr, hpeq, hpd⟩)
            · exact Or.inl (Or.inl hp)
            · rcases List.mem_cons.mp hpr with rfl | hpr
              · exact Or.inl (Or.inr hpeq)
              · exact Or.inr ⟨pr, hpr, hpeq, hpd⟩
        · rw [hok]

/-- With the cc feature off, moves succeeding for every existing destination
and every missing destination already recorded, the final move loop leaves
the failure counter and the missing set untouched. -/
theorem movePhase_spec (config : Config) (env : InboxEnv) (inbox : String)
    (hcc : config.ccRoot = "") :
    ∀ (l : List parsedName) (fr : fileResult),
      (∀ pn ∈ l, env.destIsDir (config.dest pn.dest) = true →
          env.moveRes (pjoin inbox pn.baseName)
            (pjoin3 (config.dest pn.dest) pn.year pn.baseName) = none) →
      (∀ pn ∈ l, env.destIsDir (config.dest pn.dest) = false →
          config.dest pn.dest ∈ fr.missingDirs) →
      (movePhase config env inbox l fr).failureCount = fr.failureCount ∧
        (movePhase config env inbox l fr).missingDirs = fr.missingDirs
  | [], fr, h1, h2 => ⟨rfl, rfl⟩
  | pn :: rest, fr, h1, h2 => by
      have hccd : config.ccDest pn.dest = "" := by simp [Config.ccDest, hcc]
      have hone : ∃ fr1, moveOne config env inbox pn fr = fr1 ∧
          fr1.failureCount = fr.failureCount ∧ fr1.missingDirs = fr.missingDirs := by
        cases hd : env.destIsDir (config.dest pn.dest) with
        | true =>
          have hm := h1 pn (by simp) hd
          exact ⟨_, rfl, by simp [moveOne, hccd, hm], by simp [moveOne, hccd, hm]⟩
        | false =>
          cases hm : env.moveRes (pjoin inbox pn.baseName)
              (pjoin3 (config.dest pn.dest) pn.year pn.baseName) with
          | none => exact ⟨_, rfl, by simp [moveOne, hccd, hm], by simp [moveOne, hccd, hm]⟩
          | some ge =>
            have hin := h2 pn (by simp) hd
            exact ⟨_, rfl, by simp [moveOne, hccd, hm, hin], by simp [moveOne, hccd, hm, hin]⟩
      obtain ⟨fr1, hfr1, hfail1, hmiss1⟩ := hone
      have hh1 : ∀ q ∈ rest, env.destIsDir (config.dest q.dest) = true →
          env.moveRes (pjoin inbox q.baseName)
            (pjoin3 (config.dest q.dest) q.year q.baseName) = none :=
        fun q hq => h1 q (by simp [hq])
      have hh2 : ∀ q ∈ rest, env.destIsDir (config.dest q.dest) = false →
          config.dest q.dest ∈ fr1.missingDirs := by
        intro q hq hqd
        rw [hmiss1]
        exact h2 q (by simp [hq]) hqd
      have ih := movePhase_spec config env inbox hcc rest fr1 hh1 hh2
      unfold movePhase
      rw [hfr1]
      exact ⟨by rw [ih.1, hfail1], by rw [ih.2, hmiss1]⟩

/-- Claim C3 (amended): in `processInbox` with `force = false`, every
destination whose directory does not exist is recorded in `missingDirs` and
the pass continues with the other destinations — but the total failure count
charged for such a destination is exactly **one** (a single increment at
directory-preparation time), not one per file destined there: the later
per-file move failures for that destination are suppressed by the
`missingDirs` check.  Stated for a pass whose files all parse, with the cc
feature off, error-free organize passes, and successful moves to existing
destinations; the moves aimed at missing destinations may fail arbitrarily
without adding anything to the failure count. -/
theorem c3_missing_dir_single_failure (inbox : String) (config : Config) (curYear : Int)
    (env : InboxEnv) (files : List String) (fr : fileResult)
    (hcc : config.ccRoot = "")
    (hp : ∀ b ∈ files, (parseFileName false curYear b).toOption.isSome = true)
    (horg : ∀ dest years, env.destIsDir dest = true →
        (organize false curYear env.orgMv dest (env.destChildren dest) years).2.1 = none)
    (hm : ∀ pn ∈ parsedList false curYear files,
        env.destIsDir (config.dest pn.dest) = true →
        env.moveRes (pjoin inbox pn.baseName)
          (pjoin3 (config.dest pn.dest) pn.year pn.baseName) = none) :
    ∃ fr', processInbox inbox config false curYear env true files fr = .ok fr' ∧
      (∀ p, p ∈ fr'.missingDirs ↔ p ∈ fr.missingDirs ∨
        ∃ pr, pr ∈ accOf false curYear files ∧ p = config.dest pr.1 ∧
          env.destIsDir p = false) ∧
      fr'.failureCount = fr.failureCount +
        (accOf false curYear files).countP
          (fun pr => !env.destIsDir (config.dest pr.1)) := by
  obtain ⟨fr2, hprep, hfail2, hmiss2, hok2⟩ :=
    prepPhase_force_false curYear config env horg (accOf false curYear files) fr
  have hh2 : ∀ pn ∈ parsedList false curYear files,
      env.destIsDir (config.dest pn.dest) = false →
      config.dest pn.dest ∈ fr2.missingDirs := by
    intro pn hpn hpd
    obtain ⟨pr, hpr, hkey⟩ := mem_accKeys_foldl (parsedList false curYear files) [] pn hpn
    refine (hmiss2 _).mpr (Or.inr ⟨pr, hpr, ?_, hpd⟩)
    rw [hkey]
  have hmv := movePhase_spec config env inbox hcc (parsedList false curYear files) fr2 hm hh2
  refine ⟨movePhase config env inbox (parsedList false curYear files) fr2, ?_, ?_, ?_⟩
  · unfold processInbox
    have hpp := parsePhase_all_ok false curYear files [] [] fr hp
    have hprep2 : prepPhase false curYear config env
        ((parsedList false curYear files).foldl (fun a pn => a.add pn.dest pn.year) []) fr =
        .ok fr2 := hprep
    simp only [hpp, hprep2, Bool.true_eq_false, if_false, ite_false, List.nil_append]
  · intro p
    rw [hmv.2, hmiss2 p]
  · rw [hmv.1, hfail2]

/-- Witness for C3 (amended) at a concrete input: two parsable files to one
missing destination yield exactly one failure. -/
theorem c3_witness :
    ∃ fr', processInbox "in" ⟨"r", "", []⟩ false 2026
        ⟨fun _ => false, fun _ => none, fun _ => [], fun _ _ => none,
          fun _ => false, fun _ => none, fun _ _ => none,
          fun _ _ => some (.linkError .ENOENT)⟩
        true ["20200101_baz.pdf", "20200102_baz.pdf"] ⟨0, 0, 0, []⟩ = .ok fr' ∧
      fr'.failureCount = 1 := by
  obtain ⟨fr', h1, h2, h3⟩ := c3_missing_dir_single_failure "in" ⟨"r", "", []⟩ 2026
    ⟨fun _ => false, fun _ => none, fun _ => [], fun _ _ => none,
      fun _ => false, fun _ => none, fun _ _ => none,
      fun _ _ => some (.linkError .ENOENT)⟩
    ["20200101_baz.pdf", "20200102_baz.pdf"] ⟨0, 0, 0, []⟩
    rfl (by decide) (fun dest years h => absurd h (by simp))
    (fun pn _ h => absurd h (by simp))
  refine ⟨fr', h1, ?_⟩
  rw [h3]
  decide

end FileInbox
